import Mathlib

/-
Shallow embedding of the yLab device layer (yDev.c) and its 25Q SPI NOR
flash driver (yDev_25q.c), together with proofs about the embedded
operations.

Modelling conventions:
* Machine integers are Nat.  The only places a uint32 expression can
  genuinely wrap are the range checks `cursor + size > capacity` and the
  erase-window rounding `start + size + 4095`; those carry an explicit
  `% 2^32`.  Past a successful range check every address quantity stays
  strictly below 2^32 whenever `capacity < 2^32` (which the theorems
  assume), so plain Nat arithmetic coincides with the C uint32 semantics
  on those paths.
* The external SPI transport and the monotonic clock are oracles: each
  `yDev25q_Spi_Transfer` call is abstracted by the byte count it returns,
  each status-register poll by the observed `(status, elapsed)` pair,
  and the byte-wise read loop by a list of per-iteration events.
* Loops whose C form can spin forever (polling loops retrying a failed
  byte transfer) consume one oracle event per iteration and return
  `none` when the supplied event list runs out; every terminating run of
  the C loop corresponds to a finite event list.
* `x & ~(N-1)` on uint32 with N a power of two is embedded as
  `x - x % N`, which agrees with the bitmask for all `x < 2^32`.
-/

namespace YLab

/-- yDrv layer status codes (yDrv_basic.h): YDRV_OK = 0, then ERROR, BUSY,
TIMEOUT, INVALID_PARAM in declaration order. -/
def YDRV_OK : Nat := 0

def YDRV_ERROR : Nat := 1

def YDRV_BUSY : Nat := 2

def YDRV_TIMEOUT : Nat := 3

def YDRV_INVALID_PARAM : Nat := 4

/-- yDev layer status codes (yDev.h): YDEV_OK = 0, then ERROR, BUSY, TIMEOUT,
INVALID_PARAM, NOT_INITIALIZED, NOT_SUPPORTED in declaration order. -/
def YDEV_OK : Nat := 0

def YDEV_ERROR : Nat := 1

def YDEV_TIMEOUT : Nat := 3

def YDEV_INVALID_PARAM : Nat := 4

def YDEV_NOT_SUPPORTED : Nat := 6

/-- yDev dispatch errno codes (yDev.h). -/
def YDEV_ERRNO_NO_ERROR : Nat := 0

def YDEV_ERRNO_NOT_FOUND : Nat := 1

/-- 25Q errno bitmask codes (yDev_25q.h). -/
def YDEV_25Q_ERRNO_INVALID_ADDRESS : Nat := 16

def YDEV_25Q_ERRNO_SPI_ERROR : Nat := 64

def YDEV_25Q_ERRNO_TIMEOUT : Nat := 128

def YDEV_25Q_ERRNO_CHIP_NOT_FOUND : Nat := 256

def YDEV_25Q_ERRNO_WRITE_FAIL : Nat := 16384

/-- 25Q geometry constants (yDev_25q.h). -/
def YDEV_25Q_PAGE_SIZE : Nat := 256

def YDEV_25Q_SECTOR_SIZE : Nat := 4096

def YDEV_25Q_BLOCK_SIZE : Nat := 65536

/-- 25Q operation-class timeout ceilings in milliseconds (yDev_25q.h). -/
def YDEV_25Q_TIMEOUT_PAGE_PROGRAM : Nat := 5

def YDEV_25Q_TIMEOUT_SECTOR_ERASE : Nat := 400

def YDEV_25Q_TIMEOUT_BLOCK_ERASE_64K : Nat := 2000

def YDEV_25Q_TIMEOUT_CHIP_ERASE : Nat := 40000

/-- Busy bit of status register 1 (yDev_25q.c, YDEV_25Q_STATUS_W25Q_BUSY). -/
def YDEV_25Q_STATUS_W25Q_BUSY : Nat := 1

/-- Chip-type enum value YDEV_25Q_TYPE_UNKNOWN: the four known types are
0 = W25Q16, 1 = W25Q32, 2 = W25Q64, 3 = W25Q128, and UNKNOWN = 4. -/
def YDEV_25Q_TYPE_UNKNOWN : Nat := 4

/-- Modulus of uint32 arithmetic. -/
def UINT32_MOD : Nat := 4294967296

/-- Known-chip JEDEC id table (yDev_25q.c, `IdentifyChip25q`): a 4-entry
array indexed by chip type. -/
def IdentifyChip25q : List Nat := [0xEF4016, 0xEF4017, 0xEF4018, 0xEF4019]

/-- Embedding of `yDevHandle_25q_t`: the base handle fields (index,
timeOutMs, errno) flattened together with the 25Q-specific fields.
`csLevel` records the argument of the most recent `yDrvSpiCsControl`
call on the handle's SPI bus. -/
structure yDevHandle_25q where
  index : Nat
  timeOutMs : Nat
  errno : Nat
  address : Nat
  size : Nat
  chip_type : Nat
  csLevel : Nat
deriving DecidableEq, Repr

/-- Outcome of the embedded `yDev25q_WaitBusy`.  `oobAccess` marks the
undefined out-of-bounds table read `IdentifyChip25q[chip_type]` when
`chip_type` is past the table, and `diverged` marks a polling run whose
oracle observation list was exhausted with the chip still busy. -/
inductive BusyOutcome where
  | ok
  | timedOut
  | invalidParam
  | oobAccess
  | diverged
deriving DecidableEq, Repr

/-- Polling loop of `yDev25q_WaitBusy` (yDev_25q.c lines 678-688): each
oracle observation is a pair of the status byte returned by
`yDev25q_ReadReg` and the elapsed milliseconds at the subsequent while
check.  Returns the outcome and the number of register reads issued. -/
def waitBusyLoop (mask timeoutMs : Nat) : List (Nat × Nat) → BusyOutcome × Nat
  | [] => (BusyOutcome.diverged, 0)
  | (status, elapsed) :: rest =>
    if status &&& mask = 0 then (BusyOutcome.ok, 1)
    else if elapsed ≤ timeoutMs then
      ((waitBusyLoop mask timeoutMs rest).1, (waitBusyLoop mask timeoutMs rest).2 + 1)
    else (BusyOutcome.timedOut, 1)

/-- Embedding of `yDev25q_WaitBusy` (yDev_25q.c lines 659-689): select the
status-register command and busy mask by switching on
`IdentifyChip25q[chip_type] & 0xFF0000`; 0xEF0000 selects register 0x05
with mask bit 0, anything else returns YDRV_INVALID_PARAM.  The C array
access is unchecked; an index past the table is `oobAccess`. -/
def yDev25q_WaitBusy (chip_type timeoutMs : Nat) (obs : List (Nat × Nat)) :
    BusyOutcome × Nat :=
  match IdentifyChip25q[chip_type]? with
  | none => (BusyOutcome.oobAccess, 0)
  | some id =>
    if id &&& 0xFF0000 = 0xEF0000 then
      waitBusyLoop YDEV_25Q_STATUS_W25Q_BUSY timeoutMs obs
    else (BusyOutcome.invalidParam, 0)

/-- Embedding of `yDev25q_IdentifyChip` (yDev_25q.c lines 697-708): first
index of the table holding `jedec_id`, or 4 (UNKNOWN) when absent.
`List.findIdx` returns the length (= 4) exactly when no entry matches. -/
def yDev25q_IdentifyChip (jedec_id : Nat) : Nat :=
  IdentifyChip25q.findIdx (fun x => x == jedec_id)

/-- Embedding of `yDev_25q_Init` (yDev_25q.c lines 226-295) after parameter
checks.  `spiOk` abstracts `yDrvSpiInitStatic` succeeding and `jedec_id`
is the id captured by `yDev25qReadJedecId`.  On a known chip the capacity
is `1UL << capacity_id` (uint32) with `capacity_id = jedec_id & 0xFF`
when that byte lies in [0x10, 0x20], else a 2 MB fallback. -/
def yDev_25q_Init (h : yDevHandle_25q) (spiOk : Bool) (jedec_id : Nat) :
    Nat × yDevHandle_25q :=
  if spiOk = false then (YDEV_ERROR, h)
  else
    let ct := yDev25q_IdentifyChip jedec_id
    let h1 := {h with chip_type := ct}
    if ct = YDEV_25Q_TYPE_UNKNOWN then
      (YDEV_ERROR, {h1 with errno := YDEV_25Q_ERRNO_CHIP_NOT_FOUND})
    else
      let capacity_id := jedec_id % 256
      if 0x10 ≤ capacity_id ∧ capacity_id ≤ 0x20 then
        (YDEV_OK, {h1 with size := (1 <<< capacity_id) % UINT32_MOD})
      else
        (YDEV_OK, {h1 with size := 2 * 1024 * 1024})

/-- Embedding of `yDev_25q_Deinit` (yDev_25q.c lines 306-329): on SPI
deinit success, reset chip type to UNKNOWN and capacity to 0. -/
def yDev_25q_Deinit (h : yDevHandle_25q) (spiOk : Bool) : Nat × yDevHandle_25q :=
  if spiOk = false then (YDEV_ERROR, h)
  else (YDEV_OK, {h with chip_type := YDEV_25Q_TYPE_UNKNOWN, size := 0})

/-- Embedding of `yDev25qHandleStructInit` (yDev_25q.c lines 196-212): the
default handle has chip type UNKNOWN and zeroed size/align/address. -/
def yDev25qHandleStructInit : yDevHandle_25q :=
  { index := 0, timeOutMs := 0, errno := 0, address := 0, size := 0,
    chip_type := YDEV_25Q_TYPE_UNKNOWN, csLevel := 0 }

lemma waitBusyLoop_eq_ok (mask t : Nat) :
    ∀ obs : List (Nat × Nat), (waitBusyLoop mask t obs).1 = BusyOutcome.ok →
      ∃ pre st el post, obs = pre ++ (st, el) :: post ∧ st &&& mask = 0 ∧
        ∀ p ∈ pre, p.1 &&& mask ≠ 0 := by
  intro obs
  induction obs with
  | nil => intro hr; simp [waitBusyLoop] at hr
  | cons p rest ih =>
    obtain ⟨st, el⟩ := p
    intro hr
    by_cases hclear : st &&& mask = 0
    · exact ⟨[], st, el, rest, by simp, hclear, by simp⟩
    · by_cases htime : el ≤ t
      · simp only [waitBusyLoop, if_neg hclear, if_pos htime] at hr
        obtain ⟨pre, st2, el2, post, hobs, hcl2, hbusy⟩ := ih hr
        refine ⟨(st, el) :: pre, st2, el2, post, by simp [hobs], hcl2, ?_⟩
        intro q hq
        rcases List.mem_cons.mp hq with hq | hq
        · simpa [hq] using hclear
        · exact hbusy q hq
      · simp [waitBusyLoop, if_neg hclear, if_neg htime] at hr

lemma waitBusyLoop_allBusy (mask t : Nat) :
    ∀ obs : List (Nat × Nat), (∀ p ∈ obs, p.1 &&& mask ≠ 0) →
      (∃ p ∈ obs, t < p.2) →
      (waitBusyLoop mask t obs).1 = BusyOutcome.timedOut := by
  intro obs
  induction obs with
  | nil => intro _ hex; simp at hex
  | cons p rest ih =>
    obtain ⟨st, el⟩ := p
    intro hbusy hex
    have hst : st &&& mask ≠ 0 := hbusy (st, el) (List.mem_cons_self _ _)
    by_cases htime : el ≤ t
    · have hex2 : ∃ q ∈ rest, t < q.2 := by
        rcases hex with ⟨q, hq, hqt⟩
        rcases List.mem_cons.mp hq with hq | hq
        · exact absurd hqt (by simp [hq]; omega)
        · exact ⟨q, hq, hqt⟩
      have := ih (fun q hq => hbusy q (List.mem_cons_of_mem _ hq)) hex2
      simp [waitBusyLoop, if_neg hst, if_pos htime, this]
    · simp [waitBusyLoop, if_neg hst, if_neg htime]

lemma waitBusyLoop_outcomes (mask t : Nat) :
    ∀ obs : List (Nat × Nat), (waitBusyLoop mask t obs).1 = BusyOutcome.ok ∨
      (waitBusyLoop mask t obs).1 = BusyOutcome.timedOut ∨
      (waitBusyLoop mask t obs).1 = BusyOutcome.diverged := by
  intro obs
  induction obs with
  | nil => simp [waitBusyLoop]
  | cons p rest ih =>
    obtain ⟨st, el⟩ := p
    by_cases hclear : st &&& mask = 0
    · simp [waitBusyLoop, hclear]
    · by_cases htime : el ≤ t
      · simpa [waitBusyLoop, hclear, htime] using ih
      · simp [waitBusyLoop, hclear, htime]

lemma identify_table_lookup (ct : Nat) (hct : ct < YDEV_25Q_TYPE_UNKNOWN) :
    ∃ id, IdentifyChip25q[ct]? = some id ∧ id &&& 0xFF0000 = 0xEF0000 := by
  have h4 : ct < 4 := hct
  interval_cases ct <;> exact ⟨_, rfl, by decide⟩

/-- C8: WaitBusy never returns Ready while the most recently observed
status byte has bit 0 (BUSY) set — a Ready return exhibits a consumed
observation prefix of busy bytes ending in a byte with bit 0 clear — and
when every observation shows BUSY set, WaitBusy never returns Ready, and
(for an in-bounds chip type) returns Timeout as soon as some observed
elapsed time exceeds the bound. -/
theorem yDev25qWaitBusy_c8 (ct t : Nat) (obs : List (Nat × Nat)) :
    ((yDev25q_WaitBusy ct t obs).1 = BusyOutcome.ok →
      ∃ pre st el post, obs = pre ++ (st, el) :: post ∧
        st &&& YDEV_25Q_STATUS_W25Q_BUSY = 0 ∧
        ∀ p ∈ pre, p.1 &&& YDEV_25Q_STATUS_W25Q_BUSY ≠ 0) ∧
    ((∀ p ∈ obs, p.1 &&& YDEV_25Q_STATUS_W25Q_BUSY ≠ 0) →
      (yDev25q_WaitBusy ct t obs).1 ≠ BusyOutcome.ok ∧
      ((∃ p ∈ obs, t < p.2) → ct < YDEV_25Q_TYPE_UNKNOWN →
        (yDev25q_WaitBusy ct t obs).1 = BusyOutcome.timedOut)) := by
  constructor
  · intro hr
    unfold yDev25q_WaitBusy at hr
    cases hl : IdentifyChip25q[ct]? with
    | none => rw [hl] at hr; simp at hr
    | some id =>
      rw [hl] at hr
      by_cases hid : id &&& 0xFF0000 = 0xEF0000
      · simp only [hid, if_true] at hr
        exact waitBusyLoop_eq_ok _ _ obs hr
      · simp [hid] at hr
  · intro hbusy
    constructor
    · unfold yDev25q_WaitBusy
      cases hl : IdentifyChip25q[ct]? with
      | none => simp
      | some id =>
        by_cases hid : id &&& 0xFF0000 = 0xEF0000
        · simp only [hid, if_true]
          intro hr
          obtain ⟨pre, st, el, post, hobs, hcl, _⟩ := waitBusyLoop_eq_ok _ _ obs hr
          have : st &&& YDEV_25Q_STATUS_W25Q_BUSY ≠ 0 :=
            hbusy (st, el) (by simp [hobs])
          exact this hcl
        · simp [hid]
    · intro hex hct
      obtain ⟨id, hl, hid⟩ := identify_table_lookup ct hct
      unfold yDev25q_WaitBusy
      rw [hl]
      simp only [hid, if_true]
      exact waitBusyLoop_allBusy _ _ obs hbusy hex

theorem yDev25qWaitBusy_c8_witness :
    (∀ p ∈ ([((1 : Nat), (0 : Nat)), (0, 1)] : List (Nat × Nat)), True) ∧
    (∃ pre st el post, ([((1 : Nat), (0 : Nat)), (0, 1)] : List (Nat × Nat)) =
        pre ++ (st, el) :: post ∧
      st &&& YDEV_25Q_STATUS_W25Q_BUSY = 0 ∧
      ∀ p ∈ pre, p.1 &&& YDEV_25Q_STATUS_W25Q_BUSY ≠ 0) ∧
    (yDev25q_WaitBusy 2 5 [(1, 0), (1, 6)]).1 = BusyOutcome.timedOut :=
  ⟨fun _ _ => trivial,
   (yDev25qWaitBusy_c8 2 5 [(1, 0), (0, 1)]).1 (by decide),
   ((yDev25qWaitBusy_c8 2 5 [(1, 0), (1, 6)]).2 (by decide)).2 (by decide) (by decide)⟩

/-- C10: WaitBusy indexes the 4-entry known-chip table with the handle's
chip type.  For chip_type < UNKNOWN (the state a successful Init
establishes) the lookup is in bounds, the looked-up id has manufacturer
byte 0xEF, and the InvalidParam branch is unreachable; the default
handle and a successful Deinit leave chip_type = UNKNOWN = 4, which
equals the table length, so the access is out of bounds. -/
theorem yDev25qWaitBusy_c10 (ct t : Nat) (obs : List (Nat × Nat)) :
    (ct < YDEV_25Q_TYPE_UNKNOWN →
      (∃ id, IdentifyChip25q[ct]? = some id ∧ id &&& 0xFF0000 = 0xEF0000) ∧
      (yDev25q_WaitBusy ct t obs).1 ≠ BusyOutcome.invalidParam ∧
      (yDev25q_WaitBusy ct t obs).1 ≠ BusyOutcome.oobAccess) ∧
    (∀ (h : yDevHandle_25q) (spiOk : Bool) (id : Nat),
      (yDev_25q_Init h spiOk id).1 = YDEV_OK →
      (yDev_25q_Init h spiOk id).2.chip_type < YDEV_25Q_TYPE_UNKNOWN) ∧
    (yDev25qHandleStructInit.chip_type = YDEV_25Q_TYPE_UNKNOWN ∧
     ∀ h : yDevHandle_25q, (yDev_25q_Deinit h true).2.chip_type = YDEV_25Q_TYPE_UNKNOWN) ∧
    (IdentifyChip25q.length = YDEV_25Q_TYPE_UNKNOWN ∧
     IdentifyChip25q[YDEV_25Q_TYPE_UNKNOWN]? = (none : Option Nat) ∧
     (yDev25q_WaitBusy YDEV_25Q_TYPE_UNKNOWN t obs).1 = BusyOutcome.oobAccess) := by
  refine ⟨?_, ?_, ⟨rfl, ?_⟩, by decide, ?_, ?_⟩
  · intro hct
    obtain ⟨id, hl, hid⟩ := identify_table_lookup ct hct
    have hout := waitBusyLoop_outcomes YDEV_25Q_STATUS_W25Q_BUSY t obs
    refine ⟨⟨id, hl, hid⟩, ?_, ?_⟩ <;>
      simp only [yDev25q_WaitBusy, hl, if_pos hid] <;>
      rcases hout with h1 | h1 | h1 <;> simp [h1]
  · intro h spiOk id hok
    by_cases hs : spiOk = false
    · simp [yDev_25q_Init, hs, YDEV_ERROR, YDEV_OK] at hok
    · by_cases hu : yDev25q_IdentifyChip id = YDEV_25Q_TYPE_UNKNOWN
      · simp [yDev_25q_Init, hs, hu, YDEV_ERROR, YDEV_OK] at hok
      · have hlt : yDev25q_IdentifyChip id < YDEV_25Q_TYPE_UNKNOWN := by
          have hle : yDev25q_IdentifyChip id ≤ IdentifyChip25q.length := by
            unfold yDev25q_IdentifyChip
            exact List.findIdx_le_length (fun x => x == id)
          have hlen : IdentifyChip25q.length = 4 := by decide
          have h4 : YDEV_25Q_TYPE_UNKNOWN = 4 := rfl
          omega
        by_cases hcap : 0x10 ≤ id % 256 ∧ id % 256 ≤ 0x20 <;>
          simp [yDev_25q_Init, hs, hu, hcap, hlt]
  · intro h
    simp [yDev_25q_Deinit]
  · rfl
  · rfl

theorem yDev25qWaitBusy_c10_witness :
    ((∃ id, IdentifyChip25q[(1 : Nat)]? = some id ∧ id &&& 0xFF0000 = 0xEF0000) ∧
      (yDev25q_WaitBusy 1 0 []).1 ≠ BusyOutcome.invalidParam ∧
      (yDev25q_WaitBusy 1 0 []).1 ≠ BusyOutcome.oobAccess) ∧
    (yDev_25q_Init yDev25qHandleStructInit true 0xEF4017).2.chip_type <
      YDEV_25Q_TYPE_UNKNOWN ∧
    (yDev25q_WaitBusy YDEV_25Q_TYPE_UNKNOWN 0 []).1 = BusyOutcome.oobAccess :=
  ⟨(yDev25qWaitBusy_c10 1 0 []).1 (by decide),
   (yDev25qWaitBusy_c10 1 0 []).2.1 yDev25qHandleStructInit true 0xEF4017 (by decide),
   (yDev25qWaitBusy_c10 1 0 []).2.2.2.2.2⟩

/-- C5: every JEDEC id in the known-chip table is accepted by Init, which
derives the capacity as `1 << (id & 0xFF)` bytes; in particular id
0xEF4018 is accepted with capacity 2^0x18 = 16777216 bytes. -/
theorem yDev25qInit_capacity_c5 (h : yDevHandle_25q) (id : Nat)
    (hid : id ∈ IdentifyChip25q) :
    (yDev_25q_Init h true id).1 = YDEV_OK ∧
    (yDev_25q_Init h true id).2.size = 2 ^ (id % 256) ∧
    (yDev_25q_Init h true 0xEF4018).1 = YDEV_OK ∧
    (yDev_25q_Init h true 0xEF4018).2.size = 16777216 := by
  refine ⟨?_, ?_, rfl, rfl⟩ <;> fin_cases hid <;> rfl

theorem yDev25qInit_capacity_c5_witness :
    (0xEF4018 ∈ IdentifyChip25q) ∧
    (yDev_25q_Init yDev25qHandleStructInit true 0xEF4018).1 = YDEV_OK ∧
    (yDev_25q_Init yDev25qHandleStructInit true 0xEF4018).2.size = 16777216 :=
  ⟨by decide,
   (yDev25qInit_capacity_c5 yDev25qHandleStructInit 0xEF4018 (by decide)).1,
   (yDev25qInit_capacity_c5 yDev25qHandleStructInit 0xEF4018 (by decide)).2.2.2⟩

/-- Embedding of `yDevOps_t` (yDev.h): an operations record.  The function
pointers are abstracted by the value the pointed-to driver function would
return for the dispatched call; `none` models a NULL pointer. -/
structure yDevOps where
  type : Nat
  init : Option Nat
  deinit : Option Nat
  read : Option Int
  write : Option Int
  ioctl : Option Nat
deriving DecidableEq, Repr

/-- Embedding of the base `yDevHandle_t` (yDev.h). -/
structure yDevHandle where
  index : Nat
  timeOutMs : Nat
  errno : Nat
deriving DecidableEq, Repr

/-- Result of invoking a matched entry's init pointer in `yDevInitStatic`:
the init's own status when present, YDEV_NOT_SUPPORTED when NULL. -/
def initDispatch (ops : yDevOps) : Nat :=
  match ops.init with
  | some s => s
  | none => YDEV_NOT_SUPPORTED

/-- Scan loop of `yDevInitStatic` (yDev.c lines 107-123): walk the
operations table from position `idx`, and at the first type match store
the position, set the 10 ms default timeout, clear errno, then dispatch
to the entry's init pointer. -/
def yDevInitScan (ty : Nat) (h : yDevHandle) : List yDevOps → Nat → Nat × yDevHandle
  | [], _ => (YDEV_ERROR, {h with errno := YDEV_ERRNO_NOT_FOUND})
  | ops :: rest, idx =>
    if ops.type = ty then
      (initDispatch ops, {h with index := idx, timeOutMs := 10, errno := YDEV_ERRNO_NO_ERROR})
    else yDevInitScan ty h rest (idx + 1)

/-- Embedding of `yDevInitStatic` (yDev.c lines 90-126) after the NULL
parameter checks: the table is the Operations Records between the start
and end linker markers, and `ty` is `config->type`. -/
def yDevInitStatic (table : List yDevOps) (ty : Nat) (h : yDevHandle) :
    Nat × yDevHandle :=
  yDevInitScan ty h table 0

/-- Embedding of `yDevRead` (yDev.c lines 170-192) after the NULL checks:
index the table at `handle->index` (unchecked in C: `none` marks the
out-of-bounds case) and forward through the read pointer, returning 0
when that pointer is NULL. -/
def yDevRead (table : List yDevOps) (h : yDevHandle) (size : Nat) : Option Int :=
  if size = 0 then some 0
  else
    match table[h.index]? with
    | none => none
    | some ops =>
      match ops.read with
      | some r => some r
      | none => some 0

/-- Embedding of `yDevWrite` (yDev.c lines 204-226), analogous to
`yDevRead`. -/
def yDevWrite (table : List yDevOps) (h : yDevHandle) (size : Nat) : Option Int :=
  if size = 0 then some 0
  else
    match table[h.index]? with
    | none => none
    | some ops =>
      match ops.write with
      | some r => some r
      | none => some 0

/-- Embedding of `yDevIoctl` (yDev.c lines 238-260): forward through the
ioctl pointer, returning YDEV_NOT_SUPPORTED when it is NULL. -/
def yDevIoctl (table : List yDevOps) (h : yDevHandle) (cmd : Nat) : Option Nat :=
  match table[h.index]? with
  | none => none
  | some ops =>
    match ops.ioctl with
    | some s => some s
    | none => some YDEV_NOT_SUPPORTED

lemma yDevInitScan_found (ty : Nat) (h : yDevHandle) :
    ∀ (table : List yDevOps) (i idx : Nat) (ops : yDevOps),
      (∀ j < i, ∀ o, table[j]? = some o → o.type ≠ ty) →
      table[i]? = some ops → ops.type = ty →
      yDevInitScan ty h table idx =
        (initDispatch ops,
         {h with index := idx + i, timeOutMs := 10, errno := YDEV_ERRNO_NO_ERROR}) := by
  intro table
  induction table with
  | nil => intro i idx ops _ hi; simp at hi
  | cons o rest ih =>
    intro i idx ops hbefore hi hty
    cases i with
    | zero =>
      rw [List.getElem?_cons_zero] at hi
      obtain rfl : o = ops := by injection hi
      simp [yDevInitScan, hty]
    | succ i =>
      have hne : o.type ≠ ty :=
        hbefore 0 (Nat.succ_pos i) o List.getElem?_cons_zero
      rw [List.getElem?_cons_succ] at hi
      have hrest : ∀ j < i, ∀ o2, rest[j]? = some o2 → o2.type ≠ ty := by
        intro j hj o2 ho2
        exact hbefore (j + 1) (Nat.succ_lt_succ hj) o2
          (by rw [List.getElem?_cons_succ]; exact ho2)
      have := ih i (idx + 1) ops hrest hi hty
      simp only [yDevInitScan, if_neg hne]
      rw [this]
      have : idx + 1 + i = idx + (i + 1) := by omega
      rw [this]

lemma yDevInitScan_notFound (ty : Nat) (h : yDevHandle) :
    ∀ (table : List yDevOps), (∀ o ∈ table, o.type ≠ ty) → ∀ idx,
      yDevInitScan ty h table idx = (YDEV_ERROR, {h with errno := YDEV_ERRNO_NOT_FOUND}) := by
  intro table
  induction table with
  | nil => intro _ idx; rfl
  | cons o rest ih =>
    intro hall idx
    have hne : o.type ≠ ty := hall o (List.mem_cons_self _ _)
    simp only [yDevInitScan, if_neg hne]
    exact ih (fun o2 ho2 => hall o2 (List.mem_cons_of_mem _ ho2)) (idx + 1)

/-- C6: dispatch Init scans the table in order; at the first entry whose
type tag equals the config type it stores that position into the
handle's index, sets the 10 ms default timeout, clears the error field,
and invokes that entry's init function (YDEV_NOT_SUPPORTED when the init
pointer is NULL); when no tag matches it fails with YDEV_ERROR and
records NOT_FOUND. -/
theorem yDevInitStatic_dispatch_c6 (table : List yDevOps) (ty : Nat) (h : yDevHandle) :
    (∀ i ops, (∀ j < i, ∀ o, table[j]? = some o → o.type ≠ ty) →
      table[i]? = some ops → ops.type = ty →
      yDevInitStatic table ty h =
        (initDispatch ops,
         {h with index := i, timeOutMs := 10, errno := YDEV_ERRNO_NO_ERROR})) ∧
    ((∀ o ∈ table, o.type ≠ ty) →
      yDevInitStatic table ty h = (YDEV_ERROR, {h with errno := YDEV_ERRNO_NOT_FOUND})) := by
  constructor
  · intro i ops hbefore hi hty
    have := yDevInitScan_found ty h table i 0 ops hbefore hi hty
    simpa [yDevInitStatic] using this
  · intro hall
    exact yDevInitScan_notFound ty h table hall 0

theorem yDevInitStatic_dispatch_c6_witness :
    (yDevInitStatic
        [{ type := 1, init := none, deinit := none, read := none, write := none, ioctl := none },
         { type := 4, init := some 0, deinit := none, read := none, write := none, ioctl := none }]
        4 { index := 7, timeOutMs := 0, errno := 5 } =
      (0, { index := 1, timeOutMs := 10, errno := YDEV_ERRNO_NO_ERROR })) ∧
    (yDevInitStatic
        [{ type := 1, init := none, deinit := none, read := none, write := none, ioctl := none }]
        4 { index := 7, timeOutMs := 0, errno := 5 } =
      (YDEV_ERROR, { index := 7, timeOutMs := 0, errno := YDEV_ERRNO_NOT_FOUND })) :=
  ⟨by
    have := (yDevInitStatic_dispatch_c6
      [{ type := 1, init := none, deinit := none, read := none, write := none, ioctl := none },
       { type := 4, init := some 0, deinit := none, read := none, write := none, ioctl := none }]
      4 { index := 7, timeOutMs := 0, errno := 5 }).1 1
      { type := 4, init := some 0, deinit := none, read := none, write := none, ioctl := none }
      (by decide) (by decide) (by decide)
    simpa [initDispatch, YDEV_ERRNO_NO_ERROR] using this,
   (yDevInitStatic_dispatch_c6
      [{ type := 1, init := none, deinit := none, read := none, write := none, ioctl := none }]
      4 { index := 7, timeOutMs := 0, errno := 5 }).2 (by decide)⟩

/-- C9: when the resolved Operations Record carries a NULL read, write, or
ioctl pointer, dispatch yDevRead and yDevWrite return 0 and yDevIoctl
returns YDEV_NOT_SUPPORTED, each without forwarding any call and without
faulting. -/
theorem yDevDispatch_null_c9 (table : List yDevOps) (h : yDevHandle)
    (size : Nat) (cmd : Nat) (ops : yDevOps) (hops : table[h.index]? = some ops) :
    (ops.read = none → yDevRead table h size = some 0) ∧
    (ops.write = none → yDevWrite table h size = some 0) ∧
    (ops.ioctl = none → yDevIoctl table h cmd = some YDEV_NOT_SUPPORTED) := by
  refine ⟨?_, ?_, ?_⟩ <;> intro hnull
  · by_cases hsz : size = 0 <;> simp [yDevRead, hsz, hops, hnull]
  · by_cases hsz : size = 0 <;> simp [yDevWrite, hsz, hops, hnull]
  · simp [yDevIoctl, hops, hnull]

theorem yDevDispatch_null_c9_witness :
    yDevRead
        [{ type := 3, init := none, deinit := none, read := none, write := none, ioctl := none }]
        { index := 0, timeOutMs := 0, errno := 0 } 5 = some 0 ∧
    yDevWrite
        [{ type := 3, init := none, deinit := none, read := none, write := none, ioctl := none }]
        { index := 0, timeOutMs := 0, errno := 0 } 5 = some 0 ∧
    yDevIoctl
        [{ type := 3, init := none, deinit := none, read := none, write := none, ioctl := none }]
        { index := 0, timeOutMs := 0, errno := 0 } 9 = some YDEV_NOT_SUPPORTED :=
  ⟨(yDevDispatch_null_c9 _ _ 5 9 _ rfl).1 rfl,
   (yDevDispatch_null_c9 _ _ 5 9 _ rfl).2.1 rfl,
   (yDevDispatch_null_c9 _ _ 5 9 _ rfl).2.2 rfl⟩

/-- Alignment helper: `sectorFloor x` embeds the uint32 expression
`x & ~(YDEV_25Q_SECTOR_SIZE - 1)` (valid for all x < 2^32). -/
def sectorFloor (x : Nat) : Nat := x - x % YDEV_25Q_SECTOR_SIZE

/-- One erase unit issued by `yDev25q_Erase`: its start address, its size
(4096 or 65536), and the WaitBusy timeout ceiling used for that unit's
two busy-waits. -/
structure EraseUnit where
  addr : Nat
  size : Nat
  waitCeil : Nat
deriving DecidableEq, Repr

/-- Pure erase-unit sequence of the loop in `yDev25q_Erase` (yDev_25q.c
lines 844-940): starting from the aligned address with the aligned
remaining size, pick a 64KB block erase exactly when at least 65536
bytes remain and the current address is 65536-aligned, else a 4KB
sector erase. -/
def eraseUnits (current remaining : Nat) : List EraseUnit :=
  if remaining = 0 then []
  else if YDEV_25Q_BLOCK_SIZE ≤ remaining ∧ current % YDEV_25Q_BLOCK_SIZE = 0 then
    ⟨current, YDEV_25Q_BLOCK_SIZE, YDEV_25Q_TIMEOUT_BLOCK_ERASE_64K⟩ ::
      eraseUnits (current + YDEV_25Q_BLOCK_SIZE) (remaining - YDEV_25Q_BLOCK_SIZE)
  else
    ⟨current, YDEV_25Q_SECTOR_SIZE, YDEV_25Q_TIMEOUT_SECTOR_ERASE⟩ ::
      eraseUnits (current + YDEV_25Q_SECTOR_SIZE) (remaining - YDEV_25Q_SECTOR_SIZE)
termination_by remaining
decreasing_by
  · simp [YDEV_25Q_BLOCK_SIZE]; omega
  · simp [YDEV_25Q_SECTOR_SIZE]; omega

/-- SPI oracle for one iteration of the erase loop: the write-enable
transfer return, the pre-command WaitBusy observations, the erase
command transfer return, and the completion WaitBusy observations. -/
structure EraseUnitEnv where
  weRet : Int
  waitA : List (Nat × Nat)
  cmdRet : Int
  waitB : List (Nat × Nat)
deriving DecidableEq, Repr

/-- Erase loop of `yDev25q_Erase` (yDev_25q.c lines 844-940).  Each
iteration consumes one oracle record; a run returns the yDrv status, the
final handle, and the erase units whose command was fully transferred.
`none` marks a run whose oracle was exhausted or that performed the
out-of-bounds WaitBusy table read. -/
def eraseLoop (h : yDevHandle_25q) (current remaining : Nat) :
    List EraseUnitEnv → Option (Nat × yDevHandle_25q × List EraseUnit)
  | [] => if remaining = 0 then some (YDRV_OK, h, []) else none
  | env :: rest =>
    if remaining = 0 then some (YDRV_OK, h, [])
    else if YDEV_25Q_BLOCK_SIZE ≤ remaining ∧ current % YDEV_25Q_BLOCK_SIZE = 0 then
      -- 64KB block: CS, write enable, WaitBusy, block-erase 0xD8 command, CS, WaitBusy
      if env.weRet ≠ 1 then
        some (YDRV_ERROR, {h with csLevel := 1, errno := YDEV_25Q_ERRNO_SPI_ERROR}, [])
      else if (yDev25q_WaitBusy h.chip_type YDEV_25Q_TIMEOUT_BLOCK_ERASE_64K env.waitA).1 =
          BusyOutcome.oobAccess then none
      else if (yDev25q_WaitBusy h.chip_type YDEV_25Q_TIMEOUT_BLOCK_ERASE_64K env.waitA).1 =
          BusyOutcome.diverged then none
      else if (yDev25q_WaitBusy h.chip_type YDEV_25Q_TIMEOUT_BLOCK_ERASE_64K env.waitA).1 ≠
          BusyOutcome.ok then
        some (YDRV_TIMEOUT, {h with csLevel := 0, errno := YDEV_25Q_ERRNO_TIMEOUT}, [])
      else if env.cmdRet ≠ 4 then
        some (YDRV_ERROR, {h with csLevel := 0, errno := YDEV_25Q_ERRNO_SPI_ERROR}, [])
      else if (yDev25q_WaitBusy h.chip_type YDEV_25Q_TIMEOUT_BLOCK_ERASE_64K env.waitB).1 =
          BusyOutcome.oobAccess then none
      else if (yDev25q_WaitBusy h.chip_type YDEV_25Q_TIMEOUT_BLOCK_ERASE_64K env.waitB).1 =
          BusyOutcome.diverged then none
      else if (yDev25q_WaitBusy h.chip_type YDEV_25Q_TIMEOUT_BLOCK_ERASE_64K env.waitB).1 ≠
          BusyOutcome.ok then
        some (YDRV_TIMEOUT, {h with csLevel := 1, errno := YDEV_25Q_ERRNO_TIMEOUT},
          [⟨current, YDEV_25Q_BLOCK_SIZE, YDEV_25Q_TIMEOUT_BLOCK_ERASE_64K⟩])
      else
        (eraseLoop {h with csLevel := 1} (current + YDEV_25Q_BLOCK_SIZE)
            (remaining - YDEV_25Q_BLOCK_SIZE) rest).map
          (fun r => (r.1, r.2.1,
            (⟨current, YDEV_25Q_BLOCK_SIZE, YDEV_25Q_TIMEOUT_BLOCK_ERASE_64K⟩ : EraseUnit) :: r.2.2))
    else
      -- 4KB sector: WaitBusy, write enable, sector-erase 0x20 command, WaitBusy
      if (yDev25q_WaitBusy h.chip_type YDEV_25Q_TIMEOUT_SECTOR_ERASE env.waitA).1 =
          BusyOutcome.oobAccess then none
      else if (yDev25q_WaitBusy h.chip_type YDEV_25Q_TIMEOUT_SECTOR_ERASE env.waitA).1 =
          BusyOutcome.diverged then none
      else if (yDev25q_WaitBusy h.chip_type YDEV_25Q_TIMEOUT_SECTOR_ERASE env.waitA).1 ≠
          BusyOutcome.ok then
        some (YDRV_TIMEOUT, {h with errno := YDEV_25Q_ERRNO_TIMEOUT}, [])
      else if env.weRet ≠ 1 then
        some (YDRV_ERROR, {h with csLevel := 0, errno := YDEV_25Q_ERRNO_SPI_ERROR}, [])
      else if env.cmdRet ≠ 4 then
        some (YDRV_ERROR, {h with csLevel := 0, errno := YDEV_25Q_ERRNO_SPI_ERROR}, [])
      else if (yDev25q_WaitBusy h.chip_type YDEV_25Q_TIMEOUT_SECTOR_ERASE env.waitB).1 =
          BusyOutcome.oobAccess then none
      else if (yDev25q_WaitBusy h.chip_type YDEV_25Q_TIMEOUT_SECTOR_ERASE env.waitB).1 =
          BusyOutcome.diverged then none
      else if (yDev25q_WaitBusy h.chip_type YDEV_25Q_TIMEOUT_SECTOR_ERASE env.waitB).1 ≠
          BusyOutcome.ok then
        some (YDRV_TIMEOUT, {h with csLevel := 0, errno := YDEV_25Q_ERRNO_TIMEOUT},
          [⟨current, YDEV_25Q_SECTOR_SIZE, YDEV_25Q_TIMEOUT_SECTOR_ERASE⟩])
      else
        (eraseLoop {h with csLevel := 0} (current + YDEV_25Q_SECTOR_SIZE)
            (remaining - YDEV_25Q_SECTOR_SIZE) rest).map
          (fun r => (r.1, r.2.1,
            (⟨current, YDEV_25Q_SECTOR_SIZE, YDEV_25Q_TIMEOUT_SECTOR_ERASE⟩ : EraseUnit) :: r.2.2))

/-- Embedding of `yDev25q_Erase` (yDev_25q.c lines 812-943): parameter and
range checks, then alignment of the start down and of the end up to the
4096-byte sector boundary, then the erase loop.  The uint32 expressions
`start_address + size` and `start_address + size + 4095` carry the
explicit `% 2^32`. -/
def yDev25q_Erase (h : yDevHandle_25q) (start_address size : Nat)
    (envs : List EraseUnitEnv) : Option (Nat × yDevHandle_25q × List EraseUnit) :=
  if size = 0 then some (YDRV_INVALID_PARAM, h, [])
  else if h.size < (start_address + size) % UINT32_MOD then
    some (YDRV_INVALID_PARAM, {h with errno := YDEV_25Q_ERRNO_INVALID_ADDRESS}, [])
  else
    eraseLoop h (sectorFloor start_address)
      (sectorFloor ((start_address + size + (YDEV_25Q_SECTOR_SIZE - 1)) % UINT32_MOD) -
        sectorFloor start_address) envs

/-- IOCTL command codes (yDev.h base 0x8000, yDev_25q.h base offset
0x200). -/
def YDEV_25Q_IOCTL_CHIP_ERASE : Nat := 0x8000 + 0x200 + 1

def YDEV_25Q_IOCTL_READ_JEDEC_ID : Nat := 0x8000 + 0x200 + 9

/-- Embedding of `yDev_25q_Ioctl` (yDev_25q.c lines 527-557): CHIP_ERASE
dispatches to `yDev25q_Erase(handle, 0, handle->size)` (the yDrv status
is returned through the yDevStatus type; the numeric values of the two
enums agree on 0..4).  READ_JEDEC_ID writes the id through `arg` (the
written value is outside this model) and anything else is
YDEV_NOT_SUPPORTED. -/
def yDev_25q_Ioctl (h : yDevHandle_25q) (cmd : Nat) (argPresent : Bool)
    (envs : List EraseUnitEnv) : Option (Nat × yDevHandle_25q × List EraseUnit) :=
  if cmd = YDEV_25Q_IOCTL_CHIP_ERASE then
    yDev25q_Erase h 0 h.size envs
  else if cmd = YDEV_25Q_IOCTL_READ_JEDEC_ID then
    if argPresent then some (YDEV_OK, h, []) else some (YDEV_INVALID_PARAM, h, [])
  else some (YDEV_NOT_SUPPORTED, h, [])

lemma eraseUnits_zero (c : Nat) : eraseUnits c 0 = [] := by
  rw [eraseUnits]
  simp

lemma sector_le_of_dvd {r : Nat} (hr : r ≠ 0) (hdvd : YDEV_25Q_SECTOR_SIZE ∣ r) :
    YDEV_25Q_SECTOR_SIZE ≤ r :=
  Nat.le_of_dvd (Nat.pos_of_ne_zero hr) hdvd

lemma eraseUnits_bounds (r : Nat) :
    ∀ c, YDEV_25Q_SECTOR_SIZE ∣ r → ∀ u ∈ eraseUnits c r,
      c ≤ u.addr ∧ u.addr + u.size ≤ c + r := by
  induction r using Nat.strong_induction_on with
  | _ r ih =>
    intro c hdvd u hu
    rw [eraseUnits] at hu
    by_cases hr : r = 0
    · rw [if_pos hr] at hu
      simp at hu
    rw [if_neg hr] at hu
    have hsec : YDEV_25Q_SECTOR_SIZE ≤ r := sector_le_of_dvd hr hdvd
    by_cases hcond : YDEV_25Q_BLOCK_SIZE ≤ r ∧ c % YDEV_25Q_BLOCK_SIZE = 0
    · rw [if_pos hcond] at hu
      rcases List.mem_cons.mp hu with rfl | hu
      · refine ⟨le_refl _, ?_⟩
        simp only [YDEV_25Q_BLOCK_SIZE] at hcond ⊢
        omega
      · have hlt : r - YDEV_25Q_BLOCK_SIZE < r := by
          simp only [YDEV_25Q_BLOCK_SIZE] at hcond ⊢; omega
        have hdvd2 : YDEV_25Q_SECTOR_SIZE ∣ r - YDEV_25Q_BLOCK_SIZE :=
          Nat.dvd_sub' hdvd (by decide)
        have hb := ih _ hlt _ hdvd2 u hu
        simp only [YDEV_25Q_BLOCK_SIZE] at hcond hb ⊢
        omega
    · rw [if_neg hcond] at hu
      rcases List.mem_cons.mp hu with rfl | hu
      · refine ⟨le_refl _, ?_⟩
        simp only [YDEV_25Q_SECTOR_SIZE] at hsec ⊢
        omega
      · have hlt : r - YDEV_25Q_SECTOR_SIZE < r := by
          simp only [YDEV_25Q_SECTOR_SIZE] at hsec ⊢; omega
        have hdvd2 : YDEV_25Q_SECTOR_SIZE ∣ r - YDEV_25Q_SECTOR_SIZE :=
          Nat.dvd_sub' hdvd dvd_rfl
        have hb := ih _ hlt _ hdvd2 u hu
        simp only [YDEV_25Q_SECTOR_SIZE] at hsec hb ⊢
        omega

lemma eraseUnits_cover (r : Nat) :
    ∀ c, YDEV_25Q_SECTOR_SIZE ∣ r → ∀ x,
      (∃ u ∈ eraseUnits c r, u.addr ≤ x ∧ x < u.addr + u.size) ↔
        (c ≤ x ∧ x < c + r) := by
  induction r using Nat.strong_induction_on with
  | _ r ih =>
    intro c hdvd x
    rw [eraseUnits]
    by_cases hr : r = 0
    · rw [if_pos hr]
      subst hr
      simp
    rw [if_neg hr]
    have hsec : YDEV_25Q_SECTOR_SIZE ≤ r := sector_le_of_dvd hr hdvd
    by_cases hcond : YDEV_25Q_BLOCK_SIZE ≤ r ∧ c % YDEV_25Q_BLOCK_SIZE = 0
    · rw [if_pos hcond]
      have hlt : r - YDEV_25Q_BLOCK_SIZE < r := by
        simp only [YDEV_25Q_BLOCK_SIZE] at hcond ⊢; omega
      have hdvd2 : YDEV_25Q_SECTOR_SIZE ∣ r - YDEV_25Q_BLOCK_SIZE :=
        Nat.dvd_sub' hdvd (by decide)
      have hih := ih _ hlt (c + YDEV_25Q_BLOCK_SIZE) hdvd2 x
      constructor
      · rintro ⟨u, hu, hux⟩
        rcases List.mem_cons.mp hu with rfl | hu
        · simp only [YDEV_25Q_BLOCK_SIZE] at hcond hux ⊢
          omega
        · have := hih.mp ⟨u, hu, hux⟩
          simp only [YDEV_25Q_BLOCK_SIZE] at hcond this ⊢
          omega
      · intro hx
        by_cases hhead : x < c + YDEV_25Q_BLOCK_SIZE
        · exact ⟨⟨c, YDEV_25Q_BLOCK_SIZE, YDEV_25Q_TIMEOUT_BLOCK_ERASE_64K⟩,
            List.mem_cons_self _ _, hx.1, hhead⟩
        · have hx2 : c + YDEV_25Q_BLOCK_SIZE ≤ x ∧
              x < c + YDEV_25Q_BLOCK_SIZE + (r - YDEV_25Q_BLOCK_SIZE) := by
            simp only [YDEV_25Q_BLOCK_SIZE] at hcond hx hhead ⊢
            omega
          obtain ⟨u, hu, hux⟩ := hih.mpr hx2
          exact ⟨u, List.mem_cons_of_mem _ hu, hux⟩
    · rw [if_neg hcond]
      have hlt : r - YDEV_25Q_SECTOR_SIZE < r := by
        simp only [YDEV_25Q_SECTOR_SIZE] at hsec ⊢; omega
      have hdvd2 : YDEV_25Q_SECTOR_SIZE ∣ r - YDEV_25Q_SECTOR_SIZE :=
        Nat.dvd_sub' hdvd dvd_rfl
      have hih := ih _ hlt (c + YDEV_25Q_SECTOR_SIZE) hdvd2 x
      constructor
      · rintro ⟨u, hu, hux⟩
        rcases List.mem_cons.mp hu with rfl | hu
        · simp only [YDEV_25Q_SECTOR_SIZE] at hsec hux ⊢
          omega
        · have := hih.mp ⟨u, hu, hux⟩
          simp only [YDEV_25Q_SECTOR_SIZE] at hsec this ⊢
          omega
      · intro hx
        by_cases hhead : x < c + YDEV_25Q_SECTOR_SIZE
        · exact ⟨⟨c, YDEV_25Q_SECTOR_SIZE, YDEV_25Q_TIMEOUT_SECTOR_ERASE⟩,
            List.mem_cons_self _ _, hx.1, hhead⟩
        · have hx2 : c + YDEV_25Q_SECTOR_SIZE ≤ x ∧
              x < c + YDEV_25Q_SECTOR_SIZE + (r - YDEV_25Q_SECTOR_SIZE) := by
            simp only [YDEV_25Q_SECTOR_SIZE] at hsec hx hhead ⊢
            omega
          obtain ⟨u, hu, hux⟩ := hih.mpr hx2
          exact ⟨u, List.mem_cons_of_mem _ hu, hux⟩

lemma eraseUnits_pairwise (r : Nat) :
    ∀ c, YDEV_25Q_SECTOR_SIZE ∣ r →
      List.Pairwise (fun u v => u.addr + u.size ≤ v.addr) (eraseUnits c r) := by
  induction r using Nat.strong_induction_on with
  | _ r ih =>
    intro c hdvd
    rw [eraseUnits]
    by_cases hr : r = 0
    · rw [if_pos hr]
      exact List.Pairwise.nil
    rw [if_neg hr]
    have hsec : YDEV_25Q_SECTOR_SIZE ≤ r := sector_le_of_dvd hr hdvd
    by_cases hcond : YDEV_25Q_BLOCK_SIZE ≤ r ∧ c % YDEV_25Q_BLOCK_SIZE = 0
    · rw [if_pos hcond]
      have hlt : r - YDEV_25Q_BLOCK_SIZE < r := by
        simp only [YDEV_25Q_BLOCK_SIZE] at hcond ⊢; omega
      have hdvd2 : YDEV_25Q_SECTOR_SIZE ∣ r - YDEV_25Q_BLOCK_SIZE :=
        Nat.dvd_sub' hdvd (by decide)
      refine List.pairwise_cons.mpr ⟨?_, ih _ hlt _ hdvd2⟩
      intro u hu
      exact (eraseUnits_bounds _ _ hdvd2 u hu).1
    · rw [if_neg hcond]
      have hlt : r - YDEV_25Q_SECTOR_SIZE < r := by
        simp only [YDEV_25Q_SECTOR_SIZE] at hsec ⊢; omega
      have hdvd2 : YDEV_25Q_SECTOR_SIZE ∣ r - YDEV_25Q_SECTOR_SIZE :=
        Nat.dvd_sub' hdvd dvd_rfl
      refine List.pairwise_cons.mpr ⟨?_, ih _ hlt _ hdvd2⟩
      intro u hu
      exact (eraseUnits_bounds _ _ hdvd2 u hu).1

lemma eraseUnits_shape (r : Nat) :
    ∀ c, YDEV_25Q_SECTOR_SIZE ∣ r → ∀ u ∈ eraseUnits c r,
      (u.size = YDEV_25Q_BLOCK_SIZE ∧ u.waitCeil = YDEV_25Q_TIMEOUT_BLOCK_ERASE_64K ∧
        u.addr % YDEV_25Q_BLOCK_SIZE = 0 ∧ YDEV_25Q_BLOCK_SIZE ≤ c + r - u.addr) ∨
      (u.size = YDEV_25Q_SECTOR_SIZE ∧ u.waitCeil = YDEV_25Q_TIMEOUT_SECTOR_ERASE ∧
        ¬(u.addr % YDEV_25Q_BLOCK_SIZE = 0 ∧ YDEV_25Q_BLOCK_SIZE ≤ c + r - u.addr)) := by
  induction r using Nat.strong_induction_on with
  | _ r ih =>
    intro c hdvd u hu
    rw [eraseUnits] at hu
    by_cases hr : r = 0
    · rw [if_pos hr] at hu
      simp at hu
    rw [if_neg hr] at hu
    have hsec : YDEV_25Q_SECTOR_SIZE ≤ r := sector_le_of_dvd hr hdvd
    by_cases hcond : YDEV_25Q_BLOCK_SIZE ≤ r ∧ c % YDEV_25Q_BLOCK_SIZE = 0
    · rw [if_pos hcond] at hu
      have hlt : r - YDEV_25Q_BLOCK_SIZE < r := by
        simp only [YDEV_25Q_BLOCK_SIZE] at hcond ⊢; omega
      have hdvd2 : YDEV_25Q_SECTOR_SIZE ∣ r - YDEV_25Q_BLOCK_SIZE :=
        Nat.dvd_sub' hdvd (by decide)
      rcases List.mem_cons.mp hu with rfl | hu
      · left
        refine ⟨rfl, rfl, hcond.2, ?_⟩
        simp only [YDEV_25Q_BLOCK_SIZE] at hcond ⊢
        omega
      · have heq : c + YDEV_25Q_BLOCK_SIZE + (r - YDEV_25Q_BLOCK_SIZE) = c + r := by
          simp only [YDEV_25Q_BLOCK_SIZE] at hcond ⊢
          omega
        have := ih _ hlt _ hdvd2 u hu
        rw [heq] at this
        exact this
    · rw [if_neg hcond] at hu
      have hlt : r - YDEV_25Q_SECTOR_SIZE < r := by
        simp only [YDEV_25Q_SECTOR_SIZE] at hsec ⊢; omega
      have hdvd2 : YDEV_25Q_SECTOR_SIZE ∣ r - YDEV_25Q_SECTOR_SIZE :=
        Nat.dvd_sub' hdvd dvd_rfl
      rcases List.mem_cons.mp hu with rfl | hu
      · right
        refine ⟨rfl, rfl, ?_⟩
        intro hcontra
        apply hcond
        have h1 : c % YDEV_25Q_BLOCK_SIZE = 0 := hcontra.1
        have h2 : YDEV_25Q_BLOCK_SIZE ≤ c + r - c := hcontra.2
        exact ⟨by omega, h1⟩
      · have heq : c + YDEV_25Q_SECTOR_SIZE + (r - YDEV_25Q_SECTOR_SIZE) = c + r := by
          simp only [YDEV_25Q_SECTOR_SIZE] at hsec ⊢
          omega
        have := ih _ hlt _ hdvd2 u hu
        rw [heq] at this
        exact this

lemma eraseLoop_spec :
    ∀ (envs : List EraseUnitEnv) (h : yDevHandle_25q) (current remaining s : Nat)
      (h2 : yDevHandle_25q) (us : List EraseUnit),
      eraseLoop h current remaining envs = some (s, h2, us) →
      (s = YDRV_OK → us = eraseUnits current remaining) ∧
      (∀ u ∈ us,
        (u.size = YDEV_25Q_BLOCK_SIZE ∧ u.waitCeil = YDEV_25Q_TIMEOUT_BLOCK_ERASE_64K) ∨
        (u.size = YDEV_25Q_SECTOR_SIZE ∧ u.waitCeil = YDEV_25Q_TIMEOUT_SECTOR_ERASE)) := by
  intro envs
  induction envs with
  | nil =>
    intro h current remaining s h2 us hrun
    simp only [eraseLoop] at hrun
    by_cases hr : remaining = 0
    · rw [if_pos hr] at hrun
      simp only [Option.some.injEq, Prod.mk.injEq] at hrun
      obtain ⟨hs, -, hus⟩ := hrun
      subst hr
      refine ⟨fun _ => ?_, ?_⟩
      · rw [eraseUnits_zero]; exact hus.symm
      · intro u hu; rw [← hus] at hu; simp at hu
    · rw [if_neg hr] at hrun
      exact absurd hrun (by simp)
  | cons env rest ih =>
    intro h current remaining s h2 us hrun
    simp only [eraseLoop] at hrun
    by_cases hr : remaining = 0
    · rw [if_pos hr] at hrun
      simp only [Option.some.injEq, Prod.mk.injEq] at hrun
      obtain ⟨hs, -, hus⟩ := hrun
      subst hr
      refine ⟨fun _ => ?_, ?_⟩
      · rw [eraseUnits_zero]; exact hus.symm
      · intro u hu; rw [← hus] at hu; simp at hu
    rw [if_neg hr] at hrun
    by_cases hcond : YDEV_25Q_BLOCK_SIZE ≤ remaining ∧ current % YDEV_25Q_BLOCK_SIZE = 0
    · rw [if_pos hcond] at hrun
      by_cases hwe : env.weRet ≠ 1
      · rw [if_pos hwe] at hrun
        simp only [Option.some.injEq, Prod.mk.injEq] at hrun
        obtain ⟨hs, -, hus⟩ := hrun
        refine ⟨fun hok => absurd (hs.trans hok) (by decide), ?_⟩
        intro u hu; rw [← hus] at hu; simp at hu
      rw [if_neg hwe] at hrun
      by_cases hA1 : (yDev25q_WaitBusy h.chip_type YDEV_25Q_TIMEOUT_BLOCK_ERASE_64K env.waitA).1 =
          BusyOutcome.oobAccess
      · rw [if_pos hA1] at hrun; exact absurd hrun (by simp)
      rw [if_neg hA1] at hrun
      by_cases hA2 : (yDev25q_WaitBusy h.chip_type YDEV_25Q_TIMEOUT_BLOCK_ERASE_64K env.waitA).1 =
          BusyOutcome.diverged
      · rw [if_pos hA2] at hrun; exact absurd hrun (by simp)
      rw [if_neg hA2] at hrun
      by_cases hA3 : (yDev25q_WaitBusy h.chip_type YDEV_25Q_TIMEOUT_BLOCK_ERASE_64K env.waitA).1 ≠
          BusyOutcome.ok
      · rw [if_pos hA3] at hrun
        simp only [Option.some.injEq, Prod.mk.injEq] at hrun
        obtain ⟨hs, -, hus⟩ := hrun
        refine ⟨fun hok => absurd (hs.trans hok) (by decide), ?_⟩
        intro u hu; rw [← hus] at hu; simp at hu
      rw [if_neg hA3] at hrun
      by_cases hcmd : env.cmdRet ≠ 4
      · rw [if_pos hcmd] at hrun
        simp only [Option.some.injEq, Prod.mk.injEq] at hrun
        obtain ⟨hs, -, hus⟩ := hrun
        refine ⟨fun hok => absurd (hs.trans hok) (by decide), ?_⟩
        intro u hu; rw [← hus] at hu; simp at hu
      rw [if_neg hcmd] at hrun
      by_cases hB1 : (yDev25q_WaitBusy h.chip_type YDEV_25Q_TIMEOUT_BLOCK_ERASE_64K env.waitB).1 =
          BusyOutcome.oobAccess
      · rw [if_pos hB1] at hrun; exact absurd hrun (by simp)
      rw [if_neg hB1] at hrun
      by_cases hB2 : (yDev25q_WaitBusy h.chip_type YDEV_25Q_TIMEOUT_BLOCK_ERASE_64K env.waitB).1 =
          BusyOutcome.diverged
      · rw [if_pos hB2] at hrun; exact absurd hrun (by simp)
      rw [if_neg hB2] at hrun
      by_cases hB3 : (yDev25q_WaitBusy h.chip_type YDEV_25Q_TIMEOUT_BLOCK_ERASE_64K env.waitB).1 ≠
          BusyOutcome.ok
      · rw [if_pos hB3] at hrun
        simp only [Option.some.injEq, Prod.mk.injEq] at hrun
        obtain ⟨hs, -, hus⟩ := hrun
        refine ⟨fun hok => absurd (hs.trans hok) (by decide), ?_⟩
        intro u hu
        rw [← hus] at hu
        rcases List.mem_singleton.mp hu with rfl
        left; exact ⟨rfl, rfl⟩
      rw [if_neg hB3] at hrun
      rw [Option.map_eq_some'] at hrun
      obtain ⟨⟨s1, h3, us1⟩, hrec, heq⟩ := hrun
      simp only [Prod.mk.injEq] at heq
      obtain ⟨hs1, -, hus⟩ := heq
      have hih := ih _ _ _ _ _ _ hrec
      constructor
      · intro hok
        rw [eraseUnits, if_neg hr, if_pos hcond]
        rw [← hus]
        rw [hih.1 (hs1.trans hok)]
      · intro u hu
        rw [← hus] at hu
        rcases List.mem_cons.mp hu with rfl | hu
        · left; exact ⟨rfl, rfl⟩
        · exact hih.2 u hu
    · rw [if_neg hcond] at hrun
      by_cases hA1 : (yDev25q_WaitBusy h.chip_type YDEV_25Q_TIMEOUT_SECTOR_ERASE env.waitA).1 =
          BusyOutcome.oobAccess
      · rw [if_pos hA1] at hrun; exact absurd hrun (by simp)
      rw [if_neg hA1] at hrun
      by_cases hA2 : (yDev25q_WaitBusy h.chip_type YDEV_25Q_TIMEOUT_SECTOR_ERASE env.waitA).1 =
          BusyOutcome.diverged
      · rw [if_pos hA2] at hrun; exact absurd hrun (by simp)
      rw [if_neg hA2] at hrun
      by_cases hA3 : (yDev25q_WaitBusy h.chip_type YDEV_25Q_TIMEOUT_SECTOR_ERASE env.waitA).1 ≠
          BusyOutcome.ok
      · rw [if_pos hA3] at hrun
        simp only [Option.some.injEq, Prod.mk.injEq] at hrun
        obtain ⟨hs, -, hus⟩ := hrun
        refine ⟨fun hok => absurd (hs.trans hok) (by decide), ?_⟩
        intro u hu; rw [← hus] at hu; simp at hu
      rw [if_neg hA3] at hrun
      by_cases hwe : env.weRet ≠ 1
      · rw [if_pos hwe] at hrun
        simp only [Option.some.injEq, Prod.mk.injEq] at hrun
        obtain ⟨hs, -, hus⟩ := hrun
        refine ⟨fun hok => absurd (hs.trans hok) (by decide), ?_⟩
        intro u hu; rw [← hus] at hu; simp at hu
      rw [if_neg hwe] at hrun
      by_cases hcmd : env.cmdRet ≠ 4
      · rw [if_pos hcmd] at hrun
        simp only [Option.some.injEq, Prod.mk.injEq] at hrun
        obtain ⟨hs, -, hus⟩ := hrun
        refine ⟨fun hok => absurd (hs.trans hok) (by decide), ?_⟩
        intro u hu; rw [← hus] at hu; simp at hu
      rw [if_neg hcmd] at hrun
      by_cases hB1 : (yDev25q_WaitBusy h.chip_type YDEV_25Q_TIMEOUT_SECTOR_ERASE env.waitB).1 =
          BusyOutcome.oobAccess
      · rw [if_pos hB1] at hrun; exact absurd hrun (by simp)
      rw [if_neg hB1] at hrun
      by_cases hB2 : (yDev25q_WaitBusy h.chip_type YDEV_25Q_TIMEOUT_SECTOR_ERASE env.waitB).1 =
          BusyOutcome.diverged
      · rw [if_pos hB2] at hrun; exact absurd hrun (by simp)
      rw [if_neg hB2] at hrun
      by_cases hB3 : (yDev25q_WaitBusy h.chip_type YDEV_25Q_TIMEOUT_SECTOR_ERASE env.waitB).1 ≠
          BusyOutcome.ok
      · rw [if_pos hB3] at hrun
        simp only [Option.some.injEq, Prod.mk.injEq] at hrun
        obtain ⟨hs, -, hus⟩ := hrun
        refine ⟨fun hok => absurd (hs.trans hok) (by decide), ?_⟩
        intro u hu
        rw [← hus] at hu
        rcases List.mem_singleton.mp hu with rfl
        right; exact ⟨rfl, rfl⟩
      rw [if_neg hB3] at hrun
      rw [Option.map_eq_some'] at hrun
      obtain ⟨⟨s1, h3, us1⟩, hrec, heq⟩ := hrun
      simp only [Prod.mk.injEq] at heq
      obtain ⟨hs1, -, hus⟩ := heq
      have hih := ih _ _ _ _ _ _ hrec
      constructor
      · intro hok
        rw [eraseUnits, if_neg hr, if_neg hcond]
        rw [← hus]
        rw [hih.1 (hs1.trans hok)]
      · intro u hu
        rw [← hus] at hu
        rcases List.mem_cons.mp hu with rfl | hu
        · right; exact ⟨rfl, rfl⟩
        · exact hih.2 u hu

/-- C3: a successful Erase issues a sequence of 4096-byte sector and
65536-byte block erase units whose ranges are pairwise disjoint and
whose union is exactly the window from `start` aligned down to a 4096
boundary up to `start + size` aligned up to a 4096 boundary — a window
with 4096-multiple bounds fully containing [start, start+size) — and a
64KB block is selected exactly when the unit's address is
65536-aligned with at least 65536 bytes remaining, a 4KB sector
otherwise. -/
theorem yDev25qErase_window_c3 (h : yDevHandle_25q) (start size : Nat)
    (envs : List EraseUnitEnv) (s : Nat) (h2 : yDevHandle_25q) (us : List EraseUnit)
    (hsz : 0 < size) (hrange : start + size ≤ h.size)
    (hcap : h.size + YDEV_25Q_SECTOR_SIZE ≤ UINT32_MOD)
    (hrun : yDev25q_Erase h start size envs = some (s, h2, us)) (hok : s = YDRV_OK) :
    (YDEV_25Q_SECTOR_SIZE ∣ sectorFloor start ∧
     YDEV_25Q_SECTOR_SIZE ∣ sectorFloor (start + size + (YDEV_25Q_SECTOR_SIZE - 1)) ∧
     sectorFloor start ≤ start ∧
     start + size ≤ sectorFloor (start + size + (YDEV_25Q_SECTOR_SIZE - 1))) ∧
    (∀ x, (∃ u ∈ us, u.addr ≤ x ∧ x < u.addr + u.size) ↔
      (sectorFloor start ≤ x ∧
       x < sectorFloor (start + size + (YDEV_25Q_SECTOR_SIZE - 1)))) ∧
    List.Pairwise (fun u v => u.addr + u.size ≤ v.addr) us ∧
    (∀ u ∈ us,
      (u.size = YDEV_25Q_BLOCK_SIZE ∧ u.addr % YDEV_25Q_BLOCK_SIZE = 0 ∧
        YDEV_25Q_BLOCK_SIZE ≤
          sectorFloor (start + size + (YDEV_25Q_SECTOR_SIZE - 1)) - u.addr) ∨
      (u.size = YDEV_25Q_SECTOR_SIZE ∧
        ¬(u.addr % YDEV_25Q_BLOCK_SIZE = 0 ∧
          YDEV_25Q_BLOCK_SIZE ≤
            sectorFloor (start + size + (YDEV_25Q_SECTOR_SIZE - 1)) - u.addr))) := by
  subst hok
  unfold yDev25q_Erase at hrun
  have hszne : ¬ size = 0 := by omega
  rw [if_neg hszne] at hrun
  have hlt1 : start + size < UINT32_MOD := by
    simp only [UINT32_MOD, YDEV_25Q_SECTOR_SIZE] at hcap ⊢
    omega
  rw [Nat.mod_eq_of_lt hlt1] at hrun
  have hnl : ¬ h.size < start + size := by omega
  rw [if_neg hnl] at hrun
  have hlt2 : start + size + (YDEV_25Q_SECTOR_SIZE - 1) < UINT32_MOD := by
    simp only [UINT32_MOD, YDEV_25Q_SECTOR_SIZE] at hcap ⊢
    omega
  rw [Nat.mod_eq_of_lt hlt2] at hrun
  have hspec := (eraseLoop_spec envs h _ _ _ h2 us hrun).1 rfl
  have hdlo : YDEV_25Q_SECTOR_SIZE ∣ sectorFloor start := by
    unfold sectorFloor
    simp only [YDEV_25Q_SECTOR_SIZE]
    omega
  have hdhi : YDEV_25Q_SECTOR_SIZE ∣
      sectorFloor (start + size + (YDEV_25Q_SECTOR_SIZE - 1)) := by
    unfold sectorFloor
    simp only [YDEV_25Q_SECTOR_SIZE]
    omega
  have hlos : sectorFloor start ≤ start := by
    unfold sectorFloor
    omega
  have hhie : start + size ≤ sectorFloor (start + size + (YDEV_25Q_SECTOR_SIZE - 1)) := by
    unfold sectorFloor
    simp only [YDEV_25Q_SECTOR_SIZE]
    omega
  have hlohi : sectorFloor start ≤
      sectorFloor (start + size + (YDEV_25Q_SECTOR_SIZE - 1)) := by
    omega
  have hdr : YDEV_25Q_SECTOR_SIZE ∣
      (sectorFloor (start + size + (YDEV_25Q_SECTOR_SIZE - 1)) - sectorFloor start) :=
    Nat.dvd_sub' hdhi hdlo
  have hsum : sectorFloor start +
      (sectorFloor (start + size + (YDEV_25Q_SECTOR_SIZE - 1)) - sectorFloor start) =
      sectorFloor (start + size + (YDEV_25Q_SECTOR_SIZE - 1)) := by
    omega
  refine ⟨⟨hdlo, hdhi, hlos, hhie⟩, ?_, ?_, ?_⟩
  · intro x
    rw [hspec]
    have hcov := eraseUnits_cover _ (sectorFloor start) hdr x
    rw [hsum] at hcov
    exact hcov
  · rw [hspec]
    exact eraseUnits_pairwise _ (sectorFloor start) hdr
  · intro u hu
    rw [hspec] at hu
    have hsh := eraseUnits_shape _ (sectorFloor start) hdr u hu
    rw [hsum] at hsh
    rcases hsh with ⟨ha, -, hb, hc⟩ | ⟨ha, -, hb⟩
    · left; exact ⟨ha, hb, hc⟩
    · right; exact ⟨ha, hb⟩

theorem yDev25qErase_window_c3_witness :
    List.Pairwise (fun u v => u.addr + u.size ≤ v.addr)
      ([⟨0, 4096, 400⟩, ⟨4096, 4096, 400⟩] : List EraseUnit) ∧
    (∀ x, (∃ u ∈ ([⟨0, 4096, 400⟩, ⟨4096, 4096, 400⟩] : List EraseUnit),
        u.addr ≤ x ∧ x < u.addr + u.size) ↔
      (sectorFloor 100 ≤ x ∧
       x < sectorFloor (100 + 5000 + (YDEV_25Q_SECTOR_SIZE - 1)))) := by
  have happ := yDev25qErase_window_c3 ⟨0, 10, 0, 0, 131072, 2, 0⟩ 100 5000
      [⟨1, [(0, 0)], 4, [(0, 0)]⟩, ⟨1, [(0, 0)], 4, [(0, 0)]⟩] 0
      ⟨0, 10, 0, 0, 131072, 2, 0⟩ ([⟨0, 4096, 400⟩, ⟨4096, 4096, 400⟩] : List EraseUnit)
      (by decide) (by decide) (by decide) (by decide) rfl
  exact ⟨happ.2.2.1, happ.2.1⟩

/-- C4 counterexample: a full-chip erase through Ioctl on a 4 MB
(W25Q16-class) handle with every unit succeeding issues 64 block-erase
units, and the final unit's busy-wait ceiling — like every other — is
the 64KB block class 2000 ms, not the 40000 ms chip-erase constant the
claim names. -/
theorem yDev25qIoctl_chipErase_c4_counterexample :
    yDev_25q_Ioctl ⟨0, 10, 0, 0, 4194304, 0, 1⟩ YDEV_25Q_IOCTL_CHIP_ERASE true
        (List.replicate 64 ⟨1, [(0, 0)], 4, [(0, 0)]⟩) =
      some (YDRV_OK, ⟨0, 10, 0, 0, 4194304, 0, 1⟩,
        (List.range 64).map (fun i =>
          ⟨YDEV_25Q_BLOCK_SIZE * i, YDEV_25Q_BLOCK_SIZE, YDEV_25Q_TIMEOUT_BLOCK_ERASE_64K⟩)) ∧
    ((List.range 64).map (fun i =>
        (⟨YDEV_25Q_BLOCK_SIZE * i, YDEV_25Q_BLOCK_SIZE, YDEV_25Q_TIMEOUT_BLOCK_ERASE_64K⟩ :
          EraseUnit))).getLast? =
      some ⟨YDEV_25Q_BLOCK_SIZE * 63, YDEV_25Q_BLOCK_SIZE, YDEV_25Q_TIMEOUT_BLOCK_ERASE_64K⟩ ∧
    YDEV_25Q_TIMEOUT_BLOCK_ERASE_64K ≠ YDEV_25Q_TIMEOUT_CHIP_ERASE := by
  set_option maxRecDepth 100000 in decide

/-- C4 (amended): Ioctl with the CHIP_ERASE command invokes Erase over the
full range [0, capacity), and every busy-wait ceiling the erase loop
uses — including the final one — is the per-unit class ceiling (2000 ms
for a 64KB block unit, 400 ms for a 4KB sector unit), never the 40000 ms
chip-erase constant, which the erase path leaves unused. -/
theorem yDev25qIoctl_chipErase_c4 (h : yDevHandle_25q) (argP : Bool)
    (envs : List EraseUnitEnv) :
    yDev_25q_Ioctl h YDEV_25Q_IOCTL_CHIP_ERASE argP envs =
      yDev25q_Erase h 0 h.size envs ∧
    (∀ s h2 us, yDev_25q_Ioctl h YDEV_25Q_IOCTL_CHIP_ERASE argP envs = some (s, h2, us) →
      ∀ u ∈ us,
        ((u.size = YDEV_25Q_BLOCK_SIZE ∧ u.waitCeil = YDEV_25Q_TIMEOUT_BLOCK_ERASE_64K) ∨
         (u.size = YDEV_25Q_SECTOR_SIZE ∧ u.waitCeil = YDEV_25Q_TIMEOUT_SECTOR_ERASE)) ∧
        u.waitCeil ≠ YDEV_25Q_TIMEOUT_CHIP_ERASE) := by
  have hioc : yDev_25q_Ioctl h YDEV_25Q_IOCTL_CHIP_ERASE argP envs =
      yDev25q_Erase h 0 h.size envs := by
    unfold yDev_25q_Ioctl
    rw [if_pos rfl]
  refine ⟨hioc, ?_⟩
  intro s h2 us hrun u hu
  rw [hioc] at hrun
  unfold yDev25q_Erase at hrun
  by_cases hsz : h.size = 0
  · rw [if_pos hsz] at hrun
    simp only [Option.some.injEq, Prod.mk.injEq] at hrun
    obtain ⟨-, -, hus⟩ := hrun
    rw [← hus] at hu
    simp at hu
  rw [if_neg hsz] at hrun
  by_cases haddr : h.size < (0 + h.size) % UINT32_MOD
  · rw [if_pos haddr] at hrun
    simp only [Option.some.injEq, Prod.mk.injEq] at hrun
    obtain ⟨-, -, hus⟩ := hrun
    rw [← hus] at hu
    simp at hu
  rw [if_neg haddr] at hrun
  have hconf := (eraseLoop_spec envs h _ _ _ h2 us hrun).2 u hu
  refine ⟨hconf, ?_⟩
  rcases hconf with ⟨-, hc⟩ | ⟨-, hc⟩ <;> rw [hc] <;> decide

theorem yDev25qIoctl_chipErase_c4_witness :
    (yDev_25q_Ioctl ⟨0, 10, 0, 0, 4096, 2, 0⟩ YDEV_25Q_IOCTL_CHIP_ERASE true
        [⟨1, [(0, 0)], 4, [(0, 0)]⟩] =
      yDev25q_Erase ⟨0, 10, 0, 0, 4096, 2, 0⟩ 0 4096 [⟨1, [(0, 0)], 4, [(0, 0)]⟩]) ∧
    (∀ u ∈ ([⟨0, 4096, 400⟩] : List EraseUnit),
      ((u.size = YDEV_25Q_BLOCK_SIZE ∧ u.waitCeil = YDEV_25Q_TIMEOUT_BLOCK_ERASE_64K) ∨
       (u.size = YDEV_25Q_SECTOR_SIZE ∧ u.waitCeil = YDEV_25Q_TIMEOUT_SECTOR_ERASE)) ∧
      u.waitCeil ≠ YDEV_25Q_TIMEOUT_CHIP_ERASE) := by
  have happ := yDev25qIoctl_chipErase_c4 ⟨0, 10, 0, 0, 4096, 2, 0⟩ true
      [⟨1, [(0, 0)], 4, [(0, 0)]⟩]
  exact ⟨happ.1, happ.2 0 ⟨0, 10, 0, 0, 4096, 2, 0⟩ [⟨0, 4096, 400⟩] (by decide)⟩

/-- One iteration event of the byte-wise read loop (yDev_25q.c lines
391-411): either the per-call clock check fires (`timeout`), or
`yDrvSpiWriteByte` returns 0 and the iteration retries (`writeFail`), or
the write goes through and `yDrvSpiReadByte` returns 0 (`readFail`) or
1 (`readOk`). -/
inductive SpiStep where
  | timeout
  | writeFail
  | readFail
  | readOk
deriving DecidableEq, Repr

/-- Commands the embedded Read issues on the SPI bus: status-register
polls from WaitBusy and the Read Data 0x03 command with its 24-bit
address. -/
inductive Cmd25q where
  | readStatus (reg : Nat)
  | readData (addr : Nat)
deriving DecidableEq, Repr

/-- SPI oracle for one `yDev_25q_Read` call: WaitBusy observations, the
return count of the 4-byte command transfer, and the byte-loop events. -/
structure ReadEnv where
  waitObs : List (Nat × Nat)
  cmdRet : Int
  steps : List SpiStep
deriving DecidableEq, Repr

/-- Byte-wise read loop of `yDev_25q_Read` (yDev_25q.c lines 386-418),
including the loop exit actions (deassert CS, advance the cursor by the
transferred count, return that count) and the timeout exit (deassert
CS, advance by the partial count, record Timeout, return the partial
count). -/
def readLoop (h : yDevHandle_25q) (size : Nat) : Nat → List SpiStep → Option (yDevHandle_25q × Int)
  | index, [] =>
    if size ≤ index then
      some ({h with csLevel := 0, address := h.address + index}, (index : Int))
    else none
  | index, step :: rest =>
    if size ≤ index then
      some ({h with csLevel := 0, address := h.address + index}, (index : Int))
    else
      match step with
      | SpiStep.timeout =>
        some ({h with csLevel := 0, address := h.address + index,
                      errno := YDEV_25Q_ERRNO_TIMEOUT}, (index : Int))
      | SpiStep.writeFail => readLoop h size index rest
      | SpiStep.readFail => readLoop h size index rest
      | SpiStep.readOk => readLoop h size (index + 1) rest

/-- Embedding of `yDev_25q_Read` (yDev_25q.c lines 339-419): parameter
check, range check against the capacity, pre-command WaitBusy with the
page-program ceiling, chip select and the 0x03 command with the 3-byte
big-endian cursor address, then the byte loop.  The third component
lists the commands issued on the bus. -/
def yDev_25q_Read (h : yDevHandle_25q) (size : Nat) (env : ReadEnv) :
    Option (yDevHandle_25q × Int × List Cmd25q) :=
  if size = 0 then some (h, -1, [])
  else if h.size < (h.address + size) % UINT32_MOD then
    some ({h with errno := YDEV_25Q_ERRNO_INVALID_ADDRESS}, -1, [])
  else if (yDev25q_WaitBusy h.chip_type YDEV_25Q_TIMEOUT_PAGE_PROGRAM env.waitObs).1 =
      BusyOutcome.oobAccess then none
  else if (yDev25q_WaitBusy h.chip_type YDEV_25Q_TIMEOUT_PAGE_PROGRAM env.waitObs).1 =
      BusyOutcome.diverged then none
  else if (yDev25q_WaitBusy h.chip_type YDEV_25Q_TIMEOUT_PAGE_PROGRAM env.waitObs).1 ≠
      BusyOutcome.ok then
    some ({h with errno := YDEV_25Q_ERRNO_TIMEOUT}, -1,
      List.replicate (yDev25q_WaitBusy h.chip_type YDEV_25Q_TIMEOUT_PAGE_PROGRAM env.waitObs).2
        (Cmd25q.readStatus 5))
  else if env.cmdRet ≠ 4 then
    some ({h with csLevel := 0, errno := YDEV_25Q_ERRNO_SPI_ERROR}, -1,
      List.replicate (yDev25q_WaitBusy h.chip_type YDEV_25Q_TIMEOUT_PAGE_PROGRAM env.waitObs).2
        (Cmd25q.readStatus 5) ++ [Cmd25q.readData (h.address % 16777216)])
  else
    (readLoop {h with csLevel := 1} size 0 env.steps).map
      (fun r => (r.1, r.2,
        List.replicate (yDev25q_WaitBusy h.chip_type YDEV_25Q_TIMEOUT_PAGE_PROGRAM env.waitObs).2
          (Cmd25q.readStatus 5) ++ [Cmd25q.readData (h.address % 16777216)]))

/-- Decides whether the byte-loop events drive the loop from `n` bytes
still wanted to completion before any timeout event. -/
def completesB : List SpiStep → Nat → Bool
  | _, 0 => true
  | [], _ + 1 => false
  | SpiStep.timeout :: _, _ + 1 => false
  | SpiStep.writeFail :: l, n + 1 => completesB l (n + 1)
  | SpiStep.readFail :: l, n + 1 => completesB l (n + 1)
  | SpiStep.readOk :: l, n + 1 => completesB l n

/-- Number of bytes transferred before the first timeout event, when one
occurs. -/
def bytesBeforeTimeout : List SpiStep → Option Nat
  | [] => none
  | SpiStep.timeout :: _ => some 0
  | SpiStep.readOk :: l => (bytesBeforeTimeout l).map (· + 1)
  | SpiStep.writeFail :: l => bytesBeforeTimeout l
  | SpiStep.readFail :: l => bytesBeforeTimeout l

lemma readLoop_complete (h : yDevHandle_25q) (size : Nat) :
    ∀ (steps : List SpiStep) (index : Nat), index ≤ size →
      completesB steps (size - index) = true →
      readLoop h size index steps =
        some ({h with csLevel := 0, address := h.address + size}, (size : Int)) := by
  intro steps
  induction steps with
  | nil =>
    intro index hle hc
    have hz : size - index = 0 := by
      by_contra hne
      obtain ⟨m, hm⟩ : ∃ m, size - index = m + 1 := ⟨size - index - 1, by omega⟩
      rw [hm] at hc
      simp [completesB] at hc
    have hix : index = size := by omega
    subst hix
    simp [readLoop]
  | cons step rest ih =>
    intro index hle hc
    by_cases hsz : size ≤ index
    · have hix : index = size := by omega
      subst hix
      simp [readLoop]
    · obtain ⟨m, hm⟩ : ∃ m, size - index = m + 1 := ⟨size - index - 1, by omega⟩
      rw [hm] at hc
      cases step with
      | timeout => simp [completesB] at hc
      | writeFail =>
        simp only [completesB] at hc
        simp only [readLoop, if_neg hsz]
        exact ih index (by omega) (by rw [hm]; exact hc)
      | readFail =>
        simp only [completesB] at hc
        simp only [readLoop, if_neg hsz]
        exact ih index (by omega) (by rw [hm]; exact hc)
      | readOk =>
        simp only [completesB] at hc
        simp only [readLoop, if_neg hsz]
        exact ih (index + 1) (by omega) (by
          have : size - (index + 1) = m := by omega
          rw [this]; exact hc)

lemma readLoop_timedOut (h : yDevHandle_25q) (size : Nat) :
    ∀ (steps : List SpiStep) (index p : Nat),
      bytesBeforeTimeout steps = some p → index + p < size →
      readLoop h size index steps =
        some ({h with csLevel := 0, address := h.address + (index + p),
                      errno := YDEV_25Q_ERRNO_TIMEOUT}, ((index + p : Nat) : Int)) := by
  intro steps
  induction steps with
  | nil => intro index p hp _; simp [bytesBeforeTimeout] at hp
  | cons step rest ih =>
    intro index p hp hlt
    have hsz : ¬ size ≤ index := by omega
    cases step with
    | timeout =>
      simp only [bytesBeforeTimeout, Option.some.injEq] at hp
      subst hp
      simp [readLoop, hsz]
    | writeFail =>
      simp only [bytesBeforeTimeout] at hp
      simp only [readLoop, if_neg hsz]
      exact ih index p hp hlt
    | readFail =>
      simp only [bytesBeforeTimeout] at hp
      simp only [readLoop, if_neg hsz]
      exact ih index p hp hlt
    | readOk =>
      simp only [bytesBeforeTimeout] at hp
      rw [Option.map_eq_some'] at hp
      obtain ⟨q, hq, hqp⟩ := hp
      subst hqp
      simp only [readLoop, if_neg hsz]
      have harith : index + 1 + q = index + (q + 1) := by omega
      have := ih (index + 1) q hq (by omega)
      rw [harith] at this
      exact this

/-- C1: for an initialized flash handle, an out-of-range Read records
InvalidAddress, returns -1, leaves the cursor unchanged and issues no
SPI command (empty command trace); an in-range Read (WaitBusy passes,
the 4-byte command goes out) that completes fully returns `size`,
deasserts chip select and advances the cursor by exactly `size`, with
the error field untouched; an in-range Read whose byte loop hits the
per-call timeout after `p < size` bytes deasserts chip select, records
Timeout, advances the cursor by exactly `p` and returns `p`. -/
theorem yDev25qRead_c1 (h : yDevHandle_25q) (size : Nat) (env : ReadEnv) :
    (0 < size → h.size < (h.address + size) % UINT32_MOD →
      yDev_25q_Read h size env =
        some ({h with errno := YDEV_25Q_ERRNO_INVALID_ADDRESS}, -1, [])) ∧
    (0 < size → (h.address + size) % UINT32_MOD ≤ h.size →
      (yDev25q_WaitBusy h.chip_type YDEV_25Q_TIMEOUT_PAGE_PROGRAM env.waitObs).1 =
        BusyOutcome.ok →
      env.cmdRet = 4 →
      ((completesB env.steps size = true →
        ∃ tr, yDev_25q_Read h size env =
          some ({h with csLevel := 0, address := h.address + size}, (size : Int), tr)) ∧
      (∀ p, bytesBeforeTimeout env.steps = some p → p < size →
        ∃ tr, yDev_25q_Read h size env =
          some ({h with csLevel := 0, address := h.address + p,
                        errno := YDEV_25Q_ERRNO_TIMEOUT}, (p : Int), tr)))) := by
  constructor
  · intro hpos hbad
    unfold yDev_25q_Read
    rw [if_neg (by omega), if_pos hbad]
  · intro hpos hgood hw hcmd
    have hred : yDev_25q_Read h size env =
        (readLoop {h with csLevel := 1} size 0 env.steps).map
          (fun r => (r.1, r.2,
            List.replicate
              (yDev25q_WaitBusy h.chip_type YDEV_25Q_TIMEOUT_PAGE_PROGRAM env.waitObs).2
              (Cmd25q.readStatus 5) ++ [Cmd25q.readData (h.address % 16777216)])) := by
      unfold yDev_25q_Read
      rw [if_neg (by omega), if_neg (by omega), if_neg (by simp [hw]),
        if_neg (by simp [hw]), if_neg (by simp [hw]), if_neg (by simp [hcmd])]
    constructor
    · intro hc
      refine ⟨List.replicate
          (yDev25q_WaitBusy h.chip_type YDEV_25Q_TIMEOUT_PAGE_PROGRAM env.waitObs).2
          (Cmd25q.readStatus 5) ++ [Cmd25q.readData (h.address % 16777216)], ?_⟩
      rw [hred, readLoop_complete {h with csLevel := 1} size env.steps 0 (by omega)
        (by simpa using hc)]
      rfl
    · intro p hp hple
      refine ⟨List.replicate
          (yDev25q_WaitBusy h.chip_type YDEV_25Q_TIMEOUT_PAGE_PROGRAM env.waitObs).2
          (Cmd25q.readStatus 5) ++ [Cmd25q.readData (h.address % 16777216)], ?_⟩
      rw [hred, readLoop_timedOut {h with csLevel := 1} size env.steps 0 p hp (by omega)]
      simp

theorem yDev25qRead_c1_witness :
    (yDev_25q_Read ⟨0, 10, 0, 95, 100, 2, 0⟩ 10 ⟨[(0, 0)], 4, []⟩ =
      some (⟨0, 10, YDEV_25Q_ERRNO_INVALID_ADDRESS, 95, 100, 2, 0⟩, -1, [])) ∧
    (∃ tr, yDev_25q_Read ⟨0, 10, 0, 40, 100, 2, 0⟩ 2
        ⟨[(0, 0)], 4, [SpiStep.readOk, SpiStep.readOk]⟩ =
      some (⟨0, 10, 0, 42, 100, 2, 0⟩, (2 : Int), tr)) ∧
    (∃ tr, yDev_25q_Read ⟨0, 10, 0, 40, 100, 2, 0⟩ 2
        ⟨[(0, 0)], 4, [SpiStep.readOk, SpiStep.timeout]⟩ =
      some (⟨0, 10, YDEV_25Q_ERRNO_TIMEOUT, 41, 100, 2, 0⟩, (1 : Int), tr)) := by
  refine ⟨?_, ?_, ?_⟩
  · exact (yDev25qRead_c1 ⟨0, 10, 0, 95, 100, 2, 0⟩ 10 ⟨[(0, 0)], 4, []⟩).1
      (by decide) (by decide)
  · exact ((yDev25qRead_c1 ⟨0, 10, 0, 40, 100, 2, 0⟩ 2
      ⟨[(0, 0)], 4, [SpiStep.readOk, SpiStep.readOk]⟩).2
      (by decide) (by decide) (by decide) (by decide)).1 (by decide)
  · exact ((yDev25qRead_c1 ⟨0, 10, 0, 40, 100, 2, 0⟩ 2
      ⟨[(0, 0)], 4, [SpiStep.readOk, SpiStep.timeout]⟩).2
      (by decide) (by decide) (by decide) (by decide)).2 1 (by decide) (by decide)

/-- SPI oracle for one `yDev25q_WritePage` call: two WaitBusy observation
lists and the return counts of the write-enable, command+address, and
256-byte data transfers. -/
structure WritePageEnv where
  wait1 : List (Nat × Nat)
  weRet : Int
  cmdRet : Int
  dataRet : Int
  wait2 : List (Nat × Nat)
deriving DecidableEq, Repr

/-- Embedding of `yDev25q_WritePage` (yDev_25q.c lines 746-799): WaitBusy
with the page-program ceiling, write enable, Page Program 0x02 command
with 3-byte address, 256 data bytes, then WaitBusy again; any short
transfer aborts with YDRV_ERROR/SpiError, any busy-wait failure with
YDRV_TIMEOUT/Timeout. -/
def yDev25q_WritePage (h : yDevHandle_25q) (start_address : Nat) (env : WritePageEnv) :
    Option (Nat × yDevHandle_25q) :=
  if (yDev25q_WaitBusy h.chip_type YDEV_25Q_TIMEOUT_PAGE_PROGRAM env.wait1).1 =
      BusyOutcome.oobAccess then none
  else if (yDev25q_WaitBusy h.chip_type YDEV_25Q_TIMEOUT_PAGE_PROGRAM env.wait1).1 =
      BusyOutcome.diverged then none
  else if (yDev25q_WaitBusy h.chip_type YDEV_25Q_TIMEOUT_PAGE_PROGRAM env.wait1).1 ≠
      BusyOutcome.ok then
    some (YDRV_TIMEOUT, {h with errno := YDEV_25Q_ERRNO_TIMEOUT})
  else if env.weRet ≠ 4 then
    some (YDRV_ERROR, {h with csLevel := 1, errno := YDEV_25Q_ERRNO_SPI_ERROR})
  else if env.cmdRet ≠ 4 then
    some (YDRV_ERROR, {h with csLevel := 1, errno := YDEV_25Q_ERRNO_SPI_ERROR})
  else if env.dataRet ≠ (YDEV_25Q_PAGE_SIZE : Int) then
    some (YDRV_ERROR, {h with csLevel := 0, errno := YDEV_25Q_ERRNO_SPI_ERROR})
  else if (yDev25q_WaitBusy h.chip_type YDEV_25Q_TIMEOUT_PAGE_PROGRAM env.wait2).1 =
      BusyOutcome.oobAccess then none
  else if (yDev25q_WaitBusy h.chip_type YDEV_25Q_TIMEOUT_PAGE_PROGRAM env.wait2).1 =
      BusyOutcome.diverged then none
  else if (yDev25q_WaitBusy h.chip_type YDEV_25Q_TIMEOUT_PAGE_PROGRAM env.wait2).1 ≠
      BusyOutcome.ok then
    some (YDRV_TIMEOUT, {h with csLevel := 0, errno := YDEV_25Q_ERRNO_TIMEOUT})
  else some (YDRV_OK, {h with csLevel := 1})

/-- One segment of the page-wise partition a Write performs: either a
direct full-page program at a page-aligned address, or a
read-modify-write of the page at `pageBase` overlaying `len` caller
bytes at offset `off`. -/
inductive WriteSeg where
  | direct (addr : Nat)
  | rmw (pageBase off len : Nat)
deriving DecidableEq, Repr

/-- Start address of the caller bytes a segment writes. -/
def segStart : WriteSeg → Nat
  | WriteSeg.direct a => a
  | WriteSeg.rmw p off _ => p + off

/-- Number of caller bytes a segment writes. -/
def segLen : WriteSeg → Nat
  | WriteSeg.direct _ => YDEV_25Q_PAGE_SIZE
  | WriteSeg.rmw _ _ len => len

/-- SPI oracle for one iteration of the write loop: the inner Read oracle
(used only on partial segments) and the WritePage oracle. -/
structure SegEnv where
  rd : ReadEnv
  wp : WritePageEnv
deriving DecidableEq, Repr

/-- Pure segment partition of the write loop of `yDev_25q_Write`
(yDev_25q.c lines 458-507).  Per iteration, `page_offset` is
`current % 256` and `write_size` is `min (256 - page_offset)
(size - total)`; a segment is partial (read-modify-write of the page at
`current & ~(256-1)`) when `page_offset ≠ 0` or `write_size ≠ 256`,
else a direct full-page program. -/
def writeSegs (current total size : Nat) : List WriteSeg :=
  if size ≤ total then []
  else if current % YDEV_25Q_PAGE_SIZE ≠ 0 ∨
      min (YDEV_25Q_PAGE_SIZE - current % YDEV_25Q_PAGE_SIZE) (size - total) ≠
        YDEV_25Q_PAGE_SIZE then
    WriteSeg.rmw (current - current % YDEV_25Q_PAGE_SIZE) (current % YDEV_25Q_PAGE_SIZE)
        (min (YDEV_25Q_PAGE_SIZE - current % YDEV_25Q_PAGE_SIZE) (size - total)) ::
      writeSegs (current + min (YDEV_25Q_PAGE_SIZE - current % YDEV_25Q_PAGE_SIZE) (size - total))
        (total + min (YDEV_25Q_PAGE_SIZE - current % YDEV_25Q_PAGE_SIZE) (size - total)) size
  else
    WriteSeg.direct current ::
      writeSegs (current + min (YDEV_25Q_PAGE_SIZE - current % YDEV_25Q_PAGE_SIZE) (size - total))
        (total + min (YDEV_25Q_PAGE_SIZE - current % YDEV_25Q_PAGE_SIZE) (size - total)) size
termination_by size - total
decreasing_by
  · simp only [YDEV_25Q_PAGE_SIZE] at *
    have hmod : current % 256 < 256 := Nat.mod_lt _ (by omega)
    omega
  · simp only [YDEV_25Q_PAGE_SIZE] at *
    have hmod : current % 256 < 256 := Nat.mod_lt _ (by omega)
    omega

/-- Write loop of `yDev_25q_Write` (yDev_25q.c lines 458-507).  A partial
segment saves the cursor, repoints it at the containing page base,
reads the full page through `yDev_25q_Read`, programs the merged page,
and restores the cursor only on the success path — the error returns
leave the repointed cursor in the handle, exactly as the C does.  The
returned list records the segments whose processing was entered. -/
def writeLoop (h : yDevHandle_25q) (size : Nat) :
    Nat → Nat → List SegEnv → Option (yDevHandle_25q × Int × List WriteSeg)
  | current, total, [] =>
    if size ≤ total then some ({h with address := current}, (total : Int), []) else none
  | current, total, env :: rest =>
    if size ≤ total then some ({h with address := current}, (total : Int), [])
    else if current % YDEV_25Q_PAGE_SIZE ≠ 0 ∨
        min (YDEV_25Q_PAGE_SIZE - current % YDEV_25Q_PAGE_SIZE) (size - total) ≠
          YDEV_25Q_PAGE_SIZE then
      match yDev_25q_Read {h with address := current - current % YDEV_25Q_PAGE_SIZE}
          YDEV_25Q_PAGE_SIZE env.rd with
      | none => none
      | some (h2, n, _) =>
        if n ≠ (YDEV_25Q_PAGE_SIZE : Int) then
          some ({h2 with errno := YDEV_25Q_ERRNO_SPI_ERROR}, -1,
            [WriteSeg.rmw (current - current % YDEV_25Q_PAGE_SIZE)
              (current % YDEV_25Q_PAGE_SIZE)
              (min (YDEV_25Q_PAGE_SIZE - current % YDEV_25Q_PAGE_SIZE) (size - total))])
        else
          match yDev25q_WritePage h2 (current - current % YDEV_25Q_PAGE_SIZE) env.wp with
          | none => none
          | some (s, h3) =>
            if s ≠ YDRV_OK then
              some ({h3 with errno := YDEV_25Q_ERRNO_WRITE_FAIL}, -1,
                [WriteSeg.rmw (current - current % YDEV_25Q_PAGE_SIZE)
                  (current % YDEV_25Q_PAGE_SIZE)
                  (min (YDEV_25Q_PAGE_SIZE - current % YDEV_25Q_PAGE_SIZE) (size - total))])
            else
              (writeLoop {h3 with address := h.address} size
                  (current + min (YDEV_25Q_PAGE_SIZE - current % YDEV_25Q_PAGE_SIZE) (size - total))
                  (total + min (YDEV_25Q_PAGE_SIZE - current % YDEV_25Q_PAGE_SIZE) (size - total))
                  rest).map
                (fun r => (r.1, r.2.1,
                  WriteSeg.rmw (current - current % YDEV_25Q_PAGE_SIZE)
                    (current % YDEV_25Q_PAGE_SIZE)
                    (min (YDEV_25Q_PAGE_SIZE - current % YDEV_25Q_PAGE_SIZE) (size - total)) ::
                    r.2.2))
    else
      match yDev25q_WritePage h current env.wp with
      | none => none
      | some (s, h3) =>
        if s ≠ YDRV_OK then
          some ({h3 with errno := YDEV_25Q_ERRNO_WRITE_FAIL}, -1, [WriteSeg.direct current])
        else
          (writeLoop h3 size
              (current + min (YDEV_25Q_PAGE_SIZE - current % YDEV_25Q_PAGE_SIZE) (size - total))
              (total + min (YDEV_25Q_PAGE_SIZE - current % YDEV_25Q_PAGE_SIZE) (size - total))
              rest).map
            (fun r => (r.1, r.2.1, WriteSeg.direct current :: r.2.2))

/-- Embedding of `yDev_25q_Write` (yDev_25q.c lines 430-513): parameter
check, range check against the capacity, then the page-wise write loop
starting from the handle's cursor. -/
def yDev_25q_Write (h : yDevHandle_25q) (size : Nat) (envs : List SegEnv) :
    Option (yDevHandle_25q × Int × List WriteSeg) :=
  if size = 0 then some (h, -1, [])
  else if h.size < (h.address + size) % UINT32_MOD then
    some ({h with errno := YDEV_25Q_ERRNO_INVALID_ADDRESS}, -1, [])
  else
    writeLoop h size h.address 0 envs

lemma writeSegs_stop (current total size : Nat) (hst : size ≤ total) :
    writeSegs current total size = [] := by
  rw [writeSegs, if_pos hst]

lemma writeSegs_step (current total size : Nat) (hst : ¬ size ≤ total) :
    writeSegs current total size =
      if current % 256 ≠ 0 ∨ min (256 - current % 256) (size - total) ≠ 256 then
        WriteSeg.rmw (current - current % 256) (current % 256)
            (min (256 - current % 256) (size - total)) ::
          writeSegs (current + min (256 - current % 256) (size - total))
            (total + min (256 - current % 256) (size - total)) size
      else
        WriteSeg.direct current ::
          writeSegs (current + min (256 - current % 256) (size - total))
            (total + min (256 - current % 256) (size - total)) size := by
  rw [writeSegs, if_neg hst]
  rfl

lemma segLen_direct (a : Nat) : segLen (WriteSeg.direct a) = 256 := rfl

lemma segLen_rmw (p o l : Nat) : segLen (WriteSeg.rmw p o l) = l := rfl

lemma segStart_direct (a : Nat) : segStart (WriteSeg.direct a) = a := rfl

lemma segStart_rmw (p o l : Nat) : segStart (WriteSeg.rmw p o l) = p + o := rfl

lemma writeSegs_bounds :
    ∀ (n current total size : Nat), size - total ≤ n →
      ∀ seg ∈ writeSegs current total size,
        current ≤ segStart seg ∧ segStart seg + segLen seg ≤ current + (size - total) := by
  intro n
  induction n with
  | zero =>
    intro current total size hn seg hseg
    rw [writeSegs_stop _ _ _ (by omega)] at hseg
    simp at hseg
  | succ n ih =>
    intro current total size hn seg hseg
    by_cases hst : size ≤ total
    · rw [writeSegs_stop _ _ _ hst] at hseg; simp at hseg
    rw [writeSegs_step _ _ _ hst] at hseg
    have hpo : current % 256 < 256 := Nat.mod_lt _ (by omega)
    have hminr : min (256 - current % 256) (size - total) ≤ size - total :=
      Nat.min_le_right _ _
    have hmin1 : 1 ≤ min (256 - current % 256) (size - total) :=
      Nat.le_min.mpr ⟨by omega, by omega⟩
    have hminl : min (256 - current % 256) (size - total) ≤ 256 - current % 256 :=
      Nat.min_le_left _ _
    generalize hws : min (256 - current % 256) (size - total) = ws
      at hseg hminr hmin1 hminl
    clear hws
    by_cases hcond : current % 256 ≠ 0 ∨ ws ≠ 256
    · rw [if_pos hcond] at hseg
      rcases List.mem_cons.mp hseg with rfl | hseg
      · rw [segStart_rmw, segLen_rmw]
        omega
      · have hb := ih _ _ _ (by omega) seg hseg
        omega
    · rw [if_neg hcond] at hseg
      push_neg at hcond
      rcases List.mem_cons.mp hseg with rfl | hseg
      · rw [segStart_direct, segLen_direct]
        omega
      · have hb := ih _ _ _ (by omega) seg hseg
        omega

lemma writeSegs_cover :
    ∀ (n current total size : Nat), size - total ≤ n → ∀ x,
      (∃ seg ∈ writeSegs current total size,
        segStart seg ≤ x ∧ x < segStart seg + segLen seg) ↔
        (current ≤ x ∧ x < current + (size - total)) := by
  intro n
  induction n with
  | zero =>
    intro current total size hn x
    rw [writeSegs_stop _ _ _ (by omega)]
    simp
    omega
  | succ n ih =>
    intro current total size hn x
    by_cases hst : size ≤ total
    · rw [writeSegs_stop _ _ _ hst]
      simp
      omega
    rw [writeSegs_step _ _ _ hst]
    have hpo : current % 256 < 256 := Nat.mod_lt _ (by omega)
    have hminr : min (256 - current % 256) (size - total) ≤ size - total :=
      Nat.min_le_right _ _
    have hmin1 : 1 ≤ min (256 - current % 256) (size - total) :=
      Nat.le_min.mpr ⟨by omega, by omega⟩
    have hminl : min (256 - current % 256) (size - total) ≤ 256 - current % 256 :=
      Nat.min_le_left _ _
    generalize hws : min (256 - current % 256) (size - total) = ws
      at hminr hmin1 hminl ⊢
    clear hws
    have harg : size - (total + ws) ≤ n := by clear ih; omega
    have hih := ih (current + ws) (total + ws) size harg x
    clear ih
    by_cases hcond : current % 256 ≠ 0 ∨ ws ≠ 256
    · rw [if_pos hcond]
      constructor
      · rintro ⟨seg, hseg, hx⟩
        rcases List.mem_cons.mp hseg with rfl | hseg
        · rw [segStart_rmw, segLen_rmw] at hx
          clear hih
          omega
        · have hmem := hih.mp ⟨seg, hseg, hx⟩
          clear hih hseg hx
          omega
      · intro hx
        by_cases hhead : x < current + ws
        · refine ⟨WriteSeg.rmw (current - current % 256) (current % 256) ws,
            List.mem_cons_self _ _, ?_⟩
          rw [segStart_rmw, segLen_rmw]
          clear hih
          omega
        · have hgoal : current + ws ≤ x ∧
              x < current + ws + (size - (total + ws)) := by
            clear hih
            omega
          obtain ⟨seg, hseg, hsx⟩ := hih.mpr hgoal
          exact ⟨seg, List.mem_cons_of_mem _ hseg, hsx⟩
    · rw [if_neg hcond]
      push_neg at hcond
      constructor
      · rintro ⟨seg, hseg, hx⟩
        rcases List.mem_cons.mp hseg with rfl | hseg
        · rw [segStart_direct, segLen_direct] at hx
          clear hih
          omega
        · have hmem := hih.mp ⟨seg, hseg, hx⟩
          clear hih hseg hx
          omega
      · intro hx
        by_cases hhead : x < current + ws
        · refine ⟨WriteSeg.direct current, List.mem_cons_self _ _, ?_⟩
          rw [segStart_direct, segLen_direct]
          clear hih
          omega
        · have hgoal : current + ws ≤ x ∧
              x < current + ws + (size - (total + ws)) := by
            clear hih
            omega
          obtain ⟨seg, hseg, hsx⟩ := hih.mpr hgoal
          exact ⟨seg, List.mem_cons_of_mem _ hseg, hsx⟩

lemma writeSegs_pairwise :
    ∀ (n current total size : Nat), size - total ≤ n →
      List.Pairwise (fun a b => segStart a + segLen a ≤ segStart b)
        (writeSegs current total size) := by
  intro n
  induction n with
  | zero =>
    intro current total size hn
    rw [writeSegs_stop _ _ _ (by omega)]
    exact List.Pairwise.nil
  | succ n ih =>
    intro current total size hn
    by_cases hst : size ≤ total
    · rw [writeSegs_stop _ _ _ hst]; exact List.Pairwise.nil
    rw [writeSegs_step _ _ _ hst]
    have hpo : current % 256 < 256 := Nat.mod_lt _ (by omega)
    have hminr : min (256 - current % 256) (size - total) ≤ size - total :=
      Nat.min_le_right _ _
    have hmin1 : 1 ≤ min (256 - current % 256) (size - total) :=
      Nat.le_min.mpr ⟨by omega, by omega⟩
    have hminl : min (256 - current % 256) (size - total) ≤ 256 - current % 256 :=
      Nat.min_le_left _ _
    generalize hws : min (256 - current % 256) (size - total) = ws
      at hminr hmin1 hminl ⊢
    clear hws
    have htail := ih (current + ws) (total + ws) size (by omega)
    have hbnd := writeSegs_bounds n (current + ws) (total + ws) size (by omega)
    by_cases hcond : current % 256 ≠ 0 ∨ ws ≠ 256
    · rw [if_pos hcond]
      refine List.pairwise_cons.mpr ⟨?_, htail⟩
      intro seg hseg
      have := (hbnd seg hseg).1
      rw [segStart_rmw, segLen_rmw]
      omega
    · rw [if_neg hcond]
      push_neg at hcond
      refine List.pairwise_cons.mpr ⟨?_, htail⟩
      intro seg hseg
      have := (hbnd seg hseg).1
      rw [segStart_direct, segLen_direct]
      omega

lemma writeSegs_shape :
    ∀ (n current total size : Nat), size - total ≤ n →
      ∀ seg ∈ writeSegs current total size,
        (∃ a, seg = WriteSeg.direct a ∧ a % 256 = 0) ∨
        (∃ p o l, seg = WriteSeg.rmw p o l ∧ p % 256 = 0 ∧
          o < 256 ∧ 0 < l ∧ o + l ≤ 256 ∧
          p + o = segStart seg ∧ (o ≠ 0 ∨ l ≠ 256)) := by
  intro n
  induction n with
  | zero =>
    intro current total size hn seg hseg
    rw [writeSegs_stop _ _ _ (by omega)] at hseg
    simp at hseg
  | succ n ih =>
    intro current total size hn seg hseg
    by_cases hst : size ≤ total
    · rw [writeSegs_stop _ _ _ hst] at hseg; simp at hseg
    rw [writeSegs_step _ _ _ hst] at hseg
    have hpo : current % 256 < 256 := Nat.mod_lt _ (by omega)
    have hminr : min (256 - current % 256) (size - total) ≤ size - total :=
      Nat.min_le_right _ _
    have hmin1 : 1 ≤ min (256 - current % 256) (size - total) :=
      Nat.le_min.mpr ⟨by omega, by omega⟩
    have hminl : min (256 - current % 256) (size - total) ≤ 256 - current % 256 :=
      Nat.min_le_left _ _
    generalize hws : min (256 - current % 256) (size - total) = ws
      at hseg hminr hmin1 hminl
    clear hws
    by_cases hcond : current % 256 ≠ 0 ∨ ws ≠ 256
    · rw [if_pos hcond] at hseg
      rcases List.mem_cons.mp hseg with rfl | hseg
      · right
        exact ⟨current - current % 256, current % 256, ws,
          rfl, by omega, hpo, by omega, by omega, (segStart_rmw _ _ _).symm, hcond⟩
      · exact ih _ _ _ (by omega) seg hseg
    · rw [if_neg hcond] at hseg
      push_neg at hcond
      rcases List.mem_cons.mp hseg with rfl | hseg
      · exact Or.inl ⟨current, rfl, hcond.1⟩
      · exact ih _ _ _ (by omega) seg hseg

lemma writeLoop_stop (h : yDevHandle_25q) (size current total : Nat)
    (envs : List SegEnv) (hst : size ≤ total) :
    writeLoop h size current total envs =
      some ({h with address := current}, (total : Int), []) := by
  cases envs <;> simp only [writeLoop] <;> rw [if_pos hst]

lemma writeLoop_cons (h : yDevHandle_25q) (size current total : Nat) (env : SegEnv)
    (rest : List SegEnv) (hst : ¬ size ≤ total) :
    writeLoop h size current total (env :: rest) =
      if current % 256 ≠ 0 ∨ min (256 - current % 256) (size - total) ≠ 256 then
        match yDev_25q_Read {h with address := current - current % 256} 256 env.rd with
        | none => none
        | some (h2, n, _) =>
          if n ≠ (256 : Int) then
            some ({h2 with errno := YDEV_25Q_ERRNO_SPI_ERROR}, -1,
              [WriteSeg.rmw (current - current % 256) (current % 256)
                (min (256 - current % 256) (size - total))])
          else
            match yDev25q_WritePage h2 (current - current % 256) env.wp with
            | none => none
            | some (s, h3) =>
              if s ≠ YDRV_OK then
                some ({h3 with errno := YDEV_25Q_ERRNO_WRITE_FAIL}, -1,
                  [WriteSeg.rmw (current - current % 256) (current % 256)
                    (min (256 - current % 256) (size - total))])
              else
                (writeLoop {h3 with address := h.address} size
                    (current + min (256 - current % 256) (size - total))
                    (total + min (256 - current % 256) (size - total)) rest).map
                  (fun r => (r.1, r.2.1,
                    WriteSeg.rmw (current - current % 256) (current % 256)
                      (min (256 - current % 256) (size - total)) :: r.2.2))
      else
        match yDev25q_WritePage h current env.wp with
        | none => none
        | some (s, h3) =>
          if s ≠ YDRV_OK then
            some ({h3 with errno := YDEV_25Q_ERRNO_WRITE_FAIL}, -1,
              [WriteSeg.direct current])
          else
            (writeLoop h3 size (current + min (256 - current % 256) (size - total))
                (total + min (256 - current % 256) (size - total)) rest).map
              (fun r => (r.1, r.2.1, WriteSeg.direct current :: r.2.2)) := by
  simp only [writeLoop]
  rw [if_neg hst]
  rfl

lemma writeLoop_ok (size : Nat) :
    ∀ (envs : List SegEnv) (h : yDevHandle_25q) (current total : Nat)
      (h2 : yDevHandle_25q) (n : Int) (segs : List WriteSeg),
      total ≤ size → writeLoop h size current total envs = some (h2, n, segs) →
      n ≠ -1 →
      n = (size : Int) ∧ h2.address = current + (size - total) ∧
        segs = writeSegs current total size := by
  intro envs
  induction envs with
  | nil =>
    intro h current total h2 n segs hle hrun hne
    by_cases hst : size ≤ total
    · rw [writeLoop_stop _ _ _ _ _ hst] at hrun
      simp only [Option.some.injEq, Prod.mk.injEq] at hrun
      obtain ⟨hh, hn, hsegs⟩ := hrun
      have htot : total = size := by omega
      subst htot
      refine ⟨hn.symm, ?_, ?_⟩
      · rw [← hh]
        simp
      · rw [← hsegs, writeSegs_stop _ _ _ (le_refl _)]
    · simp only [writeLoop] at hrun
      rw [if_neg hst] at hrun
      exact absurd hrun (by simp)
  | cons env rest ih =>
    intro h current total h2 n segs hle hrun hne
    by_cases hst : size ≤ total
    · rw [writeLoop_stop _ _ _ _ _ hst] at hrun
      simp only [Option.some.injEq, Prod.mk.injEq] at hrun
      obtain ⟨hh, hn, hsegs⟩ := hrun
      have htot : total = size := by omega
      subst htot
      refine ⟨hn.symm, ?_, ?_⟩
      · rw [← hh]
        simp
      · rw [← hsegs, writeSegs_stop _ _ _ (le_refl _)]
    rw [writeLoop_cons _ _ _ _ _ _ hst] at hrun
    have hpo : current % 256 < 256 := Nat.mod_lt _ (by omega)
    have hminr : min (256 - current % 256) (size - total) ≤ size - total :=
      Nat.min_le_right _ _
    have hmin1 : 1 ≤ min (256 - current % 256) (size - total) :=
      Nat.le_min.mpr ⟨by omega, by omega⟩
    by_cases hcond : current % 256 ≠ 0 ∨ min (256 - current % 256) (size - total) ≠ 256
    · rw [if_pos hcond] at hrun
      rcases hR : yDev_25q_Read {h with address := current - current % 256} 256 env.rd
        with _ | ⟨h2a, m, tr⟩
      · rw [hR] at hrun
        simp at hrun
      · rw [hR] at hrun
        simp only [] at hrun
        by_cases hm : m ≠ (256 : Int)
        · rw [if_pos hm] at hrun
          simp only [Option.some.injEq, Prod.mk.injEq] at hrun
          exact absurd hrun.2.1.symm hne
        rw [if_neg hm] at hrun
        rcases hW : yDev25q_WritePage h2a (current - current % 256) env.wp
          with _ | ⟨s, h3⟩
        · rw [hW] at hrun
          simp at hrun
        · rw [hW] at hrun
          simp only [] at hrun
          by_cases hs : s ≠ YDRV_OK
          · rw [if_pos hs] at hrun
            simp only [Option.some.injEq, Prod.mk.injEq] at hrun
            exact absurd hrun.2.1.symm hne
          rw [if_neg hs] at hrun
          rw [Option.map_eq_some'] at hrun
          obtain ⟨⟨h4, n1, segs1⟩, hrec, heq⟩ := hrun
          simp only [Prod.mk.injEq] at heq
          obtain ⟨hh4, hn1, hsegs1⟩ := heq
          subst hh4
          subst hn1
          obtain ⟨hna, haddr, hsegsr⟩ := ih _ _ _ _ _ _ (by omega) hrec hne
          refine ⟨hna, ?_, ?_⟩
          · rw [haddr]
            omega
          · rw [← hsegs1, writeSegs_step _ _ _ hst, if_pos hcond, hsegsr]
    · rw [if_neg hcond] at hrun
      rcases hW : yDev25q_WritePage h current env.wp with _ | ⟨s, h3⟩
      · rw [hW] at hrun
        simp at hrun
      · rw [hW] at hrun
        simp only [] at hrun
        by_cases hs : s ≠ YDRV_OK
        · rw [if_pos hs] at hrun
          simp only [Option.some.injEq, Prod.mk.injEq] at hrun
          exact absurd hrun.2.1.symm hne
        rw [if_neg hs] at hrun
        rw [Option.map_eq_some'] at hrun
        obtain ⟨⟨h4, n1, segs1⟩, hrec, heq⟩ := hrun
        simp only [Prod.mk.injEq] at heq
        obtain ⟨hh4, hn1, hsegs1⟩ := heq
        subst hh4
        subst hn1
        obtain ⟨hna, haddr, hsegsr⟩ := ih _ _ _ _ _ _ (by omega) hrec hne
        refine ⟨hna, ?_, ?_⟩
        · rw [haddr]
          omega
        · rw [← hsegs1, writeSegs_step _ _ _ hst, if_neg hcond, hsegsr]

/-- C2: Write fails with InvalidAddress before issuing anything when
`cursor + size` exceeds the capacity (empty segment trace); a run that
returns a non-error count returns exactly `size` with the cursor
advanced by `size`, and its segment trace is the page-wise partition of
`[cursor, cursor+size)` — pairwise disjoint, covering the request
exactly, with full page-aligned 256-byte chunks programmed directly and
partial chunks via read-modify-write of the containing page; and any
WritePage failure aborts the whole Write immediately: the loop returns
-1 with WriteFail recorded and no later segment processed. -/
theorem yDev25qWrite_c2 (h : yDevHandle_25q) (size : Nat) (envs : List SegEnv) :
    (0 < size → h.size < (h.address + size) % UINT32_MOD →
      yDev_25q_Write h size envs =
        some ({h with errno := YDEV_25Q_ERRNO_INVALID_ADDRESS}, -1, [])) ∧
    (∀ h2 n segs, yDev_25q_Write h size envs = some (h2, n, segs) → n ≠ -1 →
      n = (size : Int) ∧ h2.address = h.address + size ∧
      segs = writeSegs h.address 0 size ∧
      (∀ x, (∃ seg ∈ segs, segStart seg ≤ x ∧ x < segStart seg + segLen seg) ↔
        (h.address ≤ x ∧ x < h.address + size)) ∧
      List.Pairwise (fun a b => segStart a + segLen a ≤ segStart b) segs ∧
      (∀ seg ∈ segs,
        (∃ a, seg = WriteSeg.direct a ∧ a % 256 = 0) ∨
        (∃ p o l, seg = WriteSeg.rmw p o l ∧ p % 256 = 0 ∧ o < 256 ∧ 0 < l ∧
          o + l ≤ 256 ∧ p + o = segStart seg ∧ (o ≠ 0 ∨ l ≠ 256)))) ∧
    (∀ current total (env : SegEnv) (rest : List SegEnv) (s : Nat)
        (h3 : yDevHandle_25q),
      total < size → current % 256 = 0 →
      min (256 - current % 256) (size - total) = 256 →
      yDev25q_WritePage h current env.wp = some (s, h3) → s ≠ YDRV_OK →
      writeLoop h size current total (env :: rest) =
        some ({h3 with errno := YDEV_25Q_ERRNO_WRITE_FAIL}, -1,
          [WriteSeg.direct current])) ∧
    (∀ current total (env : SegEnv) (rest : List SegEnv)
        (hmid : yDevHandle_25q) (m : Int) (tr : List Cmd25q) (s : Nat)
        (h3 : yDevHandle_25q),
      total < size →
      (current % 256 ≠ 0 ∨ min (256 - current % 256) (size - total) ≠ 256) →
      yDev_25q_Read {h with address := current - current % 256} 256 env.rd =
        some (hmid, m, tr) →
      m = (256 : Int) →
      yDev25q_WritePage hmid (current - current % 256) env.wp = some (s, h3) →
      s ≠ YDRV_OK →
      writeLoop h size current total (env :: rest) =
        some ({h3 with errno := YDEV_25Q_ERRNO_WRITE_FAIL}, -1,
          [WriteSeg.rmw (current - current % 256) (current % 256)
            (min (256 - current % 256) (size - total))])) := by
  refine ⟨?_, ?_, ?_, ?_⟩
  · intro hpos hbad
    unfold yDev_25q_Write
    rw [if_neg (by omega), if_pos hbad]
  · intro h2 n segs hrun hne
    unfold yDev_25q_Write at hrun
    by_cases hsz : size = 0
    · rw [if_pos hsz] at hrun
      simp only [Option.some.injEq, Prod.mk.injEq] at hrun
      exact absurd hrun.2.1.symm hne
    rw [if_neg hsz] at hrun
    by_cases hbad : h.size < (h.address + size) % UINT32_MOD
    · rw [if_pos hbad] at hrun
      simp only [Option.some.injEq, Prod.mk.injEq] at hrun
      exact absurd hrun.2.1.symm hne
    rw [if_neg hbad] at hrun
    obtain ⟨hna, haddr, hsegs⟩ := writeLoop_ok size envs h h.address 0 h2 n segs
      (by omega) hrun hne
    refine ⟨hna, by rw [haddr]; omega, hsegs, ?_, ?_, ?_⟩
    · intro x
      have hcov := writeSegs_cover size h.address 0 size (by omega) x
      rw [← hsegs] at hcov
      simpa using hcov
    · rw [hsegs]
      exact writeSegs_pairwise size h.address 0 size (by omega)
    · intro seg hseg
      rw [hsegs] at hseg
      exact writeSegs_shape size h.address 0 size (by omega) seg hseg
  · intro current total env rest s h3 htot hpo0 hws256 hW hs
    rw [writeLoop_cons _ _ _ _ _ _ (by omega)]
    rw [if_neg (by push_neg; exact ⟨hpo0, hws256⟩)]
    rw [hW]
    simp only []
    rw [if_pos hs]
  · intro current total env rest hmid m tr s h3 htot hcond hR hm hW hs
    rw [writeLoop_cons _ _ _ _ _ _ (by omega)]
    rw [if_pos hcond, hR]
    simp only []
    rw [if_neg (by simp [hm]), hW]
    simp only []
    rw [if_pos hs]

theorem yDev25qWrite_c2_witness :
    (yDev_25q_Write ⟨0, 10, 0, 95, 100, 2, 0⟩ 10 [] =
      some (⟨0, 10, YDEV_25Q_ERRNO_INVALID_ADDRESS, 95, 100, 2, 0⟩, -1, [])) ∧
    (∀ x, (∃ seg ∈ ([WriteSeg.direct 0, WriteSeg.rmw 256 0 44] : List WriteSeg),
        segStart seg ≤ x ∧ x < segStart seg + segLen seg) ↔ (0 ≤ x ∧ x < 0 + 300)) ∧
    List.Pairwise (fun a b => segStart a + segLen a ≤ segStart b)
      ([WriteSeg.direct 0, WriteSeg.rmw 256 0 44] : List WriteSeg) ∧
    (writeLoop ⟨0, 10, 0, 0, 100000, 2, 0⟩ 256 0 0
        [⟨⟨[], 4, []⟩, ⟨[(1, 6)], 4, 4, 256, []⟩⟩] =
      some (⟨0, 10, YDEV_25Q_ERRNO_WRITE_FAIL, 0, 100000, 2, 0⟩, -1,
        [WriteSeg.direct 0])) := by
  have h1 := (yDev25qWrite_c2 ⟨0, 10, 0, 95, 100, 2, 0⟩ 10 []).1 (by decide) (by decide)
  have h2 := (yDev25qWrite_c2 ⟨0, 10, 0, 0, 100000, 2, 0⟩ 300
      [⟨⟨[], 4, []⟩, ⟨[(0, 0)], 4, 4, 256, [(0, 0)]⟩⟩,
       ⟨⟨[(0, 0)], 4, List.replicate 256 SpiStep.readOk⟩,
        ⟨[(0, 0)], 4, 4, 256, [(0, 0)]⟩⟩]).2.1
    ⟨0, 10, 0, 300, 100000, 2, 1⟩ 300 [WriteSeg.direct 0, WriteSeg.rmw 256 0 44]
    (by set_option maxRecDepth 100000 in decide) (by decide)
  have h3 := (yDev25qWrite_c2 ⟨0, 10, 0, 0, 100000, 2, 0⟩ 256
      [⟨⟨[], 4, []⟩, ⟨[(1, 6)], 4, 4, 256, []⟩⟩]).2.2.1 0 0
    ⟨⟨[], 4, []⟩, ⟨[(1, 6)], 4, 4, 256, []⟩⟩ [] YDRV_TIMEOUT
    ⟨0, 10, YDEV_25Q_ERRNO_TIMEOUT, 0, 100000, 2, 0⟩
    (by decide) (by decide) (by decide) (by decide) (by decide)
  refine ⟨h1, ?_, h2.2.2.2.2.1, ?_⟩
  · intro x
    exact h2.2.2.2.1 x
  · exact h3

/-- C7 (code bug): the cursor is saved and repointed at the page base for
a partial-page segment, but the error paths skip the restore.  At
cursor 10 with a 10-byte Write, the inner full-page Read fails (WaitBusy
timeout), and the call returns -1 with the handle's cursor left at 0 —
the internal page-base address — instead of the saved cursor 10,
contradicting the claim that the cursor is never left at the page base
and advances only on successful completion. -/
theorem yDev25qWrite_cursor_bug_c7 :
    yDev_25q_Write ⟨0, 10, 0, 10, 100000, 2, 0⟩ 10
        [⟨⟨[(1, 6)], 4, []⟩, ⟨[], 4, 4, 256, []⟩⟩] =
      some (⟨0, 10, YDEV_25Q_ERRNO_SPI_ERROR, 0, 100000, 2, 0⟩, -1,
        [WriteSeg.rmw 0 10 10]) ∧
    (10 : Nat) - 10 % YDEV_25Q_PAGE_SIZE = 0 ∧
    (0 : Nat) ≠ 10 := by
  decide

end YLab
